import Mathlib

/-!
# private-folder: the provisioning procedure `Init` and its filesystem guards

A shallow embedding of `helper.go`, `init.go` and `main.go`.

The operating system is modelled as a map from canonical absolute paths
(lists of components below the root) to nodes.  Path resolution follows
symbolic links (absolute targets) in intermediate components and, for the
`stat` family, also in the last one; the number of links followed in one
resolution is bounded, as in the kernel.  New entries get the mode the caller
asks for with the bits of the process umask cleared; permission checks are
outside the model.
-/

set_option autoImplicit false

namespace PrivateFolder

/-! ## Filesystem model -/

deriving instance DecidableEq for Except

/-- An absolute path: the components below the root. -/
abbrev Path := List String

/-- The `errno` values the model can produce. -/
inductive Errno
  | ENOENT
  | ENOTDIR
  | EEXIST
  | ELOOP
  | EISDIR
  deriving DecidableEq, Repr

/-- A filesystem entry; it doubles as the `FileInfo` that `Lstat`/`Stat` return. -/
inductive Node
  | file (mode : Nat) (content : String)
  | dir (mode : Nat)
  | symlink (target : Path)
  deriving DecidableEq, Repr

/-- Method `FileInfo.IsDir()`. -/
def Node.isDir : Node → Bool
  | .dir _ => true
  | _ => false

/-- The test `FileInfo.Mode() & os.ModeSymlink != 0`. -/
def Node.isSymlink : Node → Bool
  | .symlink _ => true
  | _ => false

/-- The entries of a filesystem, by canonical location. The root `[]` is always a directory. -/
abbrev FS := Path → Option Node

/-- The filesystem with the entry at `loc` set to `n`. -/
def FS.insert (fs : FS) (loc : Path) (n : Node) : FS :=
  fun q => if q = loc then some n else fs q

/-- Bound on the number of symbolic links followed in one path resolution. -/
def maxSymlinks : Nat := 40

/-- The node standing for the root directory. -/
def rootNode : Node := .dir 0o755

/-- One pass over the components of a path from the canonical directory `cur`.
`restart` resolves the path obtained by substituting a symbolic link's target.
The result is the canonical location of the last component and the entry there,
`none` when the location is free inside an existing directory. -/
def walkFrom (fs : FS) (follow : Bool)
    (restart : List String → Except Errno (Path × Option Node)) :
    Path → List String → Except Errno (Path × Option Node)
  | cur, [] => .ok (cur, some rootNode)
  | cur, c :: rest =>
    match fs (cur ++ [c]) with
    | none => if rest = [] then .ok (cur ++ [c], none) else .error .ENOENT
    | some (.dir m) =>
      if rest = [] then .ok (cur ++ [c], some (.dir m)) else walkFrom fs follow restart (cur ++ [c]) rest
    | some (.file m s) =>
      if rest = [] then .ok (cur ++ [c], some (.file m s)) else .error .ENOTDIR
    | some (.symlink t) =>
      if rest = [] ∧ follow = false then .ok (cur ++ [c], some (.symlink t))
      else restart (t ++ rest)

/-- Path resolution with at most `fuel` symbolic links followed. -/
def walk (fs : FS) (follow : Bool) : Nat → List String → Except Errno (Path × Option Node)
  | 0 => fun _ => .error .ELOOP
  | fuel + 1 => walkFrom fs follow (walk fs follow fuel) []

/-- Resolution of `p`; `follow` tells whether a symbolic link in the last component is followed. -/
def resolve (fs : FS) (follow : Bool) (p : Path) : Except Errno (Path × Option Node) :=
  walk fs follow (maxSymlinks + 1) p

/-- Function `os.Lstat`. -/
def lstat (fs : FS) (p : Path) : Except Errno Node :=
  match resolve fs false p with
  | .error e => .error e
  | .ok (_, none) => .error .ENOENT
  | .ok (_, some n) => .ok n

/-- Function `os.Stat`. -/
def stat (fs : FS) (p : Path) : Except Errno Node :=
  match resolve fs true p with
  | .error e => .error e
  | .ok (_, none) => .error .ENOENT
  | .ok (_, some n) => .ok n

/-- The mode the kernel gives a new entry: `perm & ~umask`. -/
def applyUmask (umask perm : Nat) : Nat := perm - (perm &&& umask)

/-- Function `os.Mkdir` in a process with the given umask: the result and the
filesystem afterwards. -/
def mkdir (umask : Nat) (fs : FS) (p : Path) (perm : Nat) : Except Errno Unit × FS :=
  match resolve fs false p with
  | .error e => (.error e, fs)
  | .ok (_, some _) => (.error .EEXIST, fs)
  | .ok (loc, none) => (.ok (), fs.insert loc (.dir (applyUmask umask perm)))

/-- Function `os.Symlink(target, p)`. -/
def symlink (fs : FS) (target p : Path) : Except Errno Unit × FS :=
  match resolve fs false p with
  | .error e => (.error e, fs)
  | .ok (_, some _) => (.error .EEXIST, fs)
  | .ok (loc, none) => (.ok (), fs.insert loc (.symlink target))

/-- Function `os.MkdirAll` on the path whose components, last first, are `rev`. -/
def mkdirAllRev (umask perm : Nat) : List String → FS → Except Errno Unit × FS
  | [], fs => (.ok (), fs)
  | c :: rparent, fs =>
    let p := (c :: rparent).reverse
    match stat fs p with
    | .ok n => if n.isDir then (.ok (), fs) else (.error .ENOTDIR, fs)
    | .error _ =>
      match mkdirAllRev umask perm rparent fs with
      | (.error e, fs1) => (.error e, fs1)
      | (.ok (), fs1) =>
        match mkdir umask fs1 p perm with
        | (.error e, fs2) =>
          match lstat fs2 p with
          | .ok n => if n.isDir then (.ok (), fs2) else (.error e, fs2)
          | .error _ => (.error e, fs2)
        | (.ok (), fs2) => (.ok (), fs2)

/-- Function `os.MkdirAll`. -/
def mkdirAll (umask : Nat) (fs : FS) (p : Path) (perm : Nat) : Except Errno Unit × FS :=
  mkdirAllRev umask perm p.reverse fs

/-- Function `os.Create` followed by writing `content` and closing: the file is created
with mode `0666 & ~umask` or, when it exists, truncated and rewritten. -/
def createWrite (umask : Nat) (fs : FS) (p : Path) (content : String) :
    Except Errno Unit × FS :=
  match resolve fs true p with
  | .error e => (.error e, fs)
  | .ok (loc, none) => (.ok (), fs.insert loc (.file (applyUmask umask 0o666) content))
  | .ok (loc, some (.file m _)) => (.ok (), fs.insert loc (.file m content))
  | .ok (_, some _) => (.error .EISDIR, fs)

/-- Function `os.Open` followed by reading the whole file. -/
def readFile (fs : FS) (p : Path) : Except Errno String :=
  match stat fs p with
  | .error e => .error e
  | .ok (.file _ s) => .ok s
  | .ok _ => .error .EISDIR

/-! ## The program -/

/-- The errors `Init` can return. -/
inductive Err
  /-- An error returned by an `os` call. -/
  | sys (e : Errno)
  /-- The result of `fmt.Errorf("%s " ++ msg, path)`: a conflicting entry at `path`. -/
  | errorf (path : Path) (msg : String)
  /-- The error of `diceware.Generate`. -/
  | generator
  /-- The error of `resourceFS.Open`. -/
  | resource
  /-- The error of the TOML decoder. -/
  | decode
  /-- The error of `git.PlainOpenWithOptions` or of `repo.Worktree`. -/
  | repository
  deriving DecidableEq, Repr

/-- The struct `PrivateFolderConfig`. -/
structure PrivateFolderConfig where
  FolderName : String
  deriving DecidableEq, Repr

/-- What the program takes from outside: the helper's root, `xdg.ConfigHome`, the
embedded resource, the random word source and the TOML library. -/
structure Env where
  /-- Field `helper.root`. -/
  root : Path
  /-- Variable `xdg.ConfigHome`. -/
  configHome : Path
  /-- The umask of the process. -/
  umask : Nat
  /-- Content of `resources/gitignore` in `resourceFS`, `none` when it cannot be opened. -/
  gitignore : Option String
  /-- Outcome of the k-th call of `diceware.Generate(4)`, `none` for an error. -/
  diceware : Nat → Option (List String)
  /-- Output of the TOML encoder on a config with the given `FolderName`. -/
  encode : String → String
  /-- Result of the TOML decoder: `none` for an error, else the value of the
  key `folderName` when the document has one. -/
  decode : String → Option (Option String)

/-- The state a run works on: the filesystem, the number of calls made to the
word source, and the local variable `config` of `Init`. -/
structure St where
  fs : FS
  genCalls : Nat
  config : PrivateFolderConfig

/-- The result of a step: `none` when it does not return within the fuel given. -/
abbrev Outcome := Option (Except Err Unit × St)

/-- Function `createDir`. -/
def createDir (umask : Nat) (dir : Path) (perm : Nat) (s : St) : Outcome :=
  match lstat s.fs dir with
  | .error e =>
    if e = .ENOENT then
      match mkdirAll umask s.fs dir perm with
      | (.error e1, fs1) => some (.error (.sys e1), { s with fs := fs1 })
      | (.ok (), fs1) => some (.ok (), { s with fs := fs1 })
    else some (.error (.sys e), s)
  | .ok st =>
    if !st.isDir then some (.error (.errorf dir "exists but is not a directory"), s)
    else some (.ok (), s)

/-- Function `createFile`. -/
def createFile (path : Path) (create : Path → St → Outcome) (s : St) : Outcome :=
  match lstat s.fs path with
  | .error e =>
    if e = .ENOENT then create path s
    else some (.error (.sys e), s)
  | .ok st =>
    if st.isDir then some (.error (.errorf path "exists but is not a file"), s)
    else some (.ok (), s)

/-- Function `createDirSymlink`. -/
def createDirSymlink (dir : Path) (create : Path → St → Outcome) (s : St) : Outcome :=
  match lstat s.fs dir with
  | .error e =>
    if e = .ENOENT then create dir s
    else some (.error (.sys e), s)
  | .ok st =>
    if !st.isSymlink then some (.error (.errorf dir "exists but is not a symlink"), s)
    else
      match stat s.fs dir with
      | .error e => some (.error (.sys e), s)
      | .ok st1 =>
        if !st1.isDir then some (.error (.errorf dir "exists but is not a directory"), s)
        else some (.ok (), s)

/-- Function `generateFolderName`, at the call number `k` of the word source. -/
def generateFolderName (env : Env) (k : Nat) : Option String :=
  match env.diceware k with
  | none => none
  | some list => some ("-".intercalate list)

/-- Function `copyResourceFile` for `resources/gitignore`. -/
def copyResourceFile (env : Env) (dst : Path) (s : St) : Outcome :=
  match env.gitignore with
  | none => some (.error .resource, s)
  | some bytes =>
    match createWrite env.umask s.fs dst bytes with
    | (.error e, fs1) => some (.error (.sys e), { s with fs := fs1 })
    | (.ok (), fs1) => some (.ok (), { s with fs := fs1 })

/-- Function `writeConfigFile`. -/
def writeConfigFile (env : Env) (config : PrivateFolderConfig) (configPath : Path) (s : St) :
    Outcome :=
  match createWrite env.umask s.fs configPath (env.encode config.FolderName) with
  | (.error e, fs1) => some (.error (.sys e), { s with fs := fs1 })
  | (.ok (), fs1) => some (.ok (), { s with fs := fs1 })

/-- The elements of a path string between its separators `/`; `cur` holds, last
character first, the element being read. -/
def splitSlash : List Char → List Char → List String
  | cur, [] => [String.mk cur.reverse]
  | cur, c :: cs =>
    if c = '/' then String.mk cur.reverse :: splitSlash [] cs else splitSlash (c :: cur) cs

/-- What `filepath.Join` makes of an absolute clean path and one more element: the
element is split at `/`, empty elements and `.` are dropped and `..` removes the
component before it (at the root there is none to remove). -/
def joinClean (base : Path) (elem : String) : Path :=
  (splitSlash [] elem.data).foldl
    (fun p c => if c = "" ∨ c = "." then p else if c = ".." then p.dropLast else p ++ [c]) base

/-- The path `filepath.Join(xdg.ConfigHome, "private-folder", folderName)`. -/
def targetPath (env : Env) (folderName : String) : Path :=
  joinClean (env.configHome ++ ["private-folder"]) folderName

/-- The `for` loop of `Init` (lines 67-86), run for at most `fuel` iterations. -/
def reserveLoop (env : Env) : Nat → St → Outcome
  | 0, _ => none
  | fuel + 1, s =>
    match generateFolderName env s.genCalls with
    | none => some (.error .generator, { s with genCalls := s.genCalls + 1 })
    | some folderName =>
      let s1 : St := { s with genCalls := s.genCalls + 1 }
      match stat s1.fs (targetPath env folderName) with
      | .ok _ => reserveLoop env fuel s1
      | .error e =>
        if e = .ENOENT then
          match mkdirAll env.umask s1.fs (targetPath env folderName) 0o777 with
          | (.error e1, fs1) => some (.error (.sys e1), { s1 with fs := fs1 })
          | (.ok (), fs1) => some (.ok (), { s1 with fs := fs1, config := ⟨folderName⟩ })
        else some (.error (.sys e), s1)

/-- The closure passed to `createFile` for `configPath` (lines 66-96). -/
def initConfig (env : Env) (fuel : Nat) (configPath : Path) (_path : Path) (s : St) : Outcome :=
  match reserveLoop env fuel s with
  | none => none
  | some (.error e, s1) => some (.error e, s1)
  | some (.ok (), s1) =>
    createFile configPath (fun path s2 => writeConfigFile env s2.config path s2) s1

/-- The anonymous function of lines 101-117: open `configPath` and decode it into `config`. -/
def loadConfig (env : Env) (configPath : Path) (s : St) : Outcome :=
  match readFile s.fs configPath with
  | .error e => some (.error (.sys e), s)
  | .ok text =>
    match env.decode text with
    | none => some (.error .decode, s)
    | some none => some (.ok (), s)
    | some (some name) => some (.ok (), { s with config := ⟨name⟩ })

/-- The closure passed to `createDirSymlink` (lines 123-130). -/
def initSymlink (env : Env) (path : Path) (s : St) : Outcome :=
  match symlink s.fs (targetPath env s.config.FolderName) path with
  | (.error e, fs1) => some (.error (.sys e), { s with fs := fs1 })
  | (.ok (), fs1) => some (.ok (), { s with fs := fs1 })

/-- One step after another: the second runs when the first returned no error. -/
def Outcome.andThen (o : Outcome) (next : St → Outcome) : Outcome :=
  match o with
  | none => none
  | some (.error e, s) => some (.error e, s)
  | some (.ok (), s) => next s

/-- Local variable `baseDir` of `Init`. -/
def baseDir (env : Env) : Path := env.root ++ [".private"]

/-- Local variable `gitignorePath` of `Init`. -/
def gitignorePath (env : Env) : Path := baseDir env ++ [".gitignore"]

/-- Local variable `configPath` of `Init`. -/
def configPath (env : Env) : Path := baseDir env ++ ["config.toml"]

/-- Local variable `localPrivateFolderPath` of `Init`. -/
def localPrivateFolderPath (env : Env) : Path := baseDir env ++ ["files"]

/-- Method `PrivateFolderHelper.Init`; the loop runs for at most `fuel` iterations. -/
def Init (env : Env) (fuel : Nat) (s : St) : Outcome :=
  (createDir env.umask (baseDir env) 0o755 s).andThen fun s =>
  (createFile (gitignorePath env)
    (fun _path => copyResourceFile env (gitignorePath env)) s).andThen fun s =>
  (createFile (configPath env) (initConfig env fuel (configPath env)) s).andThen fun s =>
  (loadConfig env (configPath env) s).andThen fun s =>
  createDirSymlink (localPrivateFolderPath env) (initSymlink env) s

/-- The steps of `Init` before the link (lines 50-120). -/
def initBeforeLink (env : Env) (fuel : Nat) (s : St) : Outcome :=
  (createDir env.umask (baseDir env) 0o755 s).andThen fun s =>
  (createFile (gitignorePath env)
    (fun _path => copyResourceFile env (gitignorePath env)) s).andThen fun s =>
  (createFile (configPath env) (initConfig env fuel (configPath env)) s).andThen fun s =>
  loadConfig env (configPath env) s

/-- A run of `Init` from the filesystem `fs`: `config` starts as the zero value. -/
def runInit (env : Env) (fuel : Nat) (fs : FS) (genCalls : Nat) : Outcome :=
  Init env fuel { fs := fs, genCalls := genCalls, config := ⟨""⟩ }

/-- Function `NewPrivateFolderHelper`: `detect` is what opening the repository at "."
and taking its worktree root gives, `none` when either fails. -/
def NewPrivateFolderHelper (detect : Option Path) : Except Err Path :=
  match detect with
  | none => .error .repository
  | some root => .ok root

/-- Function `doInit`; `env.root` stands for the root the helper found. -/
def doInit (env : Env) (detect : Option Path) (fuel : Nat) (s : St) : Outcome :=
  match NewPrivateFolderHelper detect with
  | .error e => some (.error e, s)
  | .ok root => Init { env with root := root } fuel s

/-- How the process ends: its exit status and what `slog.Error` was given. -/
structure Exit where
  status : Nat
  logged : Option Err
  deriving DecidableEq, Repr

/-- Function `main` for the command `init`: `app.Run` returns the error of `doInit`
(none of these errors is a `cli.ExitCoder`), `main` logs it and returns; a Go
program whose `main` returns ends with exit status 0. -/
def main (env : Env) (detect : Option Path) (fuel : Nat) (s : St) : Option (Exit × St) :=
  match doInit env detect fuel s with
  | none => none
  | some (.error err, s1) => some ({ status := 0, logged := some err }, s1)
  | some (.ok (), s1) => some ({ status := 0, logged := none }, s1)

/-! ## Notions used in the statements and proofs -/

/-- The error is a conflicting-entry error: one built by `fmt.Errorf` in a guard. -/
def Err.isConflict : Err → Bool
  | .errorf _ _ => true
  | _ => false

/-- Every entry of `fs1` is in `fs2`, unchanged. -/
def Grows (fs1 fs2 : FS) : Prop := ∀ q n, fs1 q = some n → fs2 q = some n

/-- A result of resolution that is not a symbolic link left unfollowed. -/
def NotLink : Except Errno (Path × Option Node) → Prop
  | .ok (_, some (.symlink _)) => False
  | _ => True

/-- What every step guarantees: entries are only added and the word source only advances. -/
def Keeps (s : St) (o : Outcome) : Prop :=
  ∀ r, o = some r → Grows s.fs r.2.fs ∧ s.genCalls ≤ r.2.genCalls

/-- What `Lstat` finds for the name `c` inside the directory at the canonical location `l`. -/
def childAt (fs : FS) (l : Path) (c : String) : Except Errno (Path × Option Node) :=
  .ok (l ++ [c], fs (l ++ [c]))

/-- The state an outcome ends in, `d` when there is none. -/
def Outcome.state (o : Outcome) (d : St) : St :=
  match o with
  | some (_, s) => s
  | none => d

/-- The state of a run that starts on `fs`. -/
def St.start (fs : FS) : St := { fs := fs, genCalls := 0, config := ⟨""⟩ }

/-- Nothing exists along `b` below the canonical location `l`: no entry at `l ++ b1`
for any non-empty initial part `b1` of `b`. -/
def Free (fs : FS) (l : Path) (b : List String) : Prop :=
  ∀ q, l <+: q → q <+: l ++ b → q ≠ l → fs q = none

/-- The filesystem `fs` with a directory of mode `mode` at `l ++ b1` for every non-empty
initial part `b1` of `b`. -/
def addDirs (fs : FS) (mode : Nat) (l : Path) (b : List String) : FS :=
  fun q => if l <+: q ∧ q <+: l ++ b ∧ q ≠ l then some (.dir mode) else fs q

/-! ## Concrete inputs -/

/-- A TOML encoder for the examples: one line `folderName = '...'`. -/
def tomlEncode (name : String) : String := "folderName = '" ++ name ++ "'\n"

/-- A TOML decoder for the examples: the empty document has no key, a line written by
`tomlEncode` has the key `folderName`, anything else is an error. -/
def tomlDecode (text : String) : Option (Option String) :=
  if text = "" then some none
  else
    let pre := "folderName = '".data
    let cs := text.data
    if pre.isPrefixOf cs ∧ ['\'', '\n'].isSuffixOf cs then
      some (some (String.mk ((cs.drop pre.length).take (cs.length - pre.length - 2))))
    else none

/-- An environment for the examples: repository `/repo`, config home `/home/cfg`; the
first name generated is `amber-birch-cedar-delta`, every later one `echo-fjord-grove-heron`. -/
def env0 : Env where
  root := ["repo"]
  configHome := ["home", "cfg"]
  umask := 0o022
  gitignore := some "files\n"
  diceware := fun k =>
    if k = 0 then some ["amber", "birch", "cedar", "delta"]
    else some ["echo", "fjord", "grove", "heron"]
  encode := tomlEncode
  decode := tomlDecode

/-- A repository with `.private`, `.gitignore` and a `config.toml` naming `a-b-c-d`;
neither the link `.private/files` nor the directory `/home/cfg/private-folder/a-b-c-d` exists. -/
def fsConfigOnly : FS := fun p =>
  match p with
  | ["repo"] => some (.dir 0o755)
  | ["repo", ".private"] => some (.dir 0o755)
  | ["repo", ".private", ".gitignore"] => some (.file 0o644 "files\n")
  | ["repo", ".private", "config.toml"] => some (.file 0o644 "folderName = 'a-b-c-d'\n")
  | ["home"] => some (.dir 0o755)
  | ["home", "cfg"] => some (.dir 0o755)
  | _ => none

/-- The filesystem `fsConfigOnly` with a dangling link at `.private/files`. -/
def fsDangling : FS :=
  fsConfigOnly.insert ["repo", ".private", "files"]
    (.symlink ["home", "cfg", "private-folder", "a-b-c-d"])

/-- A repository whose `.private` is a symbolic link to the directory `/store`. -/
def fsLinkedBase : FS := fun p =>
  match p with
  | ["repo"] => some (.dir 0o755)
  | ["repo", ".private"] => some (.symlink ["store"])
  | ["store"] => some (.dir 0o755)
  | ["store", ".gitignore"] => some (.dir 0o755)
  | _ => none

/-- A filesystem in which `/repo` is a dangling symbolic link. -/
def fsDanglingRoot : FS := fun p =>
  match p with
  | ["repo"] => some (.symlink ["gone"])
  | _ => none

/-- The filesystem `fsConfigOnly` with a real directory at `.private/files`. -/
def fsRealDirLink : FS :=
  fsConfigOnly.insert ["repo", ".private", "files"] (.dir 0o755)

/-- A fresh repository `/repo`; the directory `/home/cfg/private-folder/amber-birch-cedar-delta`
is already taken. -/
def fsTaken : FS := fun p =>
  match p with
  | ["repo"] => some (.dir 0o755)
  | ["repo", ".private"] => some (.dir 0o755)
  | ["home"] => some (.dir 0o755)
  | ["home", "cfg"] => some (.dir 0o755)
  | ["home", "cfg", "private-folder"] => some (.dir 0o755)
  | ["home", "cfg", "private-folder", "amber-birch-cedar-delta"] => some (.dir 0o755)
  | _ => none

/-- A fresh repository `/repo` where `/home/cfg/private-folder` is a dangling symbolic link. -/
def fsDanglingStore : FS := fun p =>
  match p with
  | ["repo"] => some (.dir 0o755)
  | ["home"] => some (.dir 0o755)
  | ["home", "cfg"] => some (.dir 0o755)
  | ["home", "cfg", "private-folder"] => some (.symlink ["gone"])
  | _ => none

/-- Two working trees: a fresh `/repo`, and `/clone` whose tracked `.private/config.toml`
already names `amber-birch-cedar-delta`. -/
def fsTwoTrees : FS := fun p =>
  match p with
  | ["repo"] => some (.dir 0o755)
  | ["clone"] => some (.dir 0o755)
  | ["clone", ".private"] => some (.dir 0o755)
  | ["clone", ".private", ".gitignore"] => some (.file 0o644 "files\n")
  | ["clone", ".private", "config.toml"] =>
    some (.file 0o644 "folderName = 'amber-birch-cedar-delta'\n")
  | ["home"] => some (.dir 0o755)
  | ["home", "cfg"] => some (.dir 0o755)
  | _ => none

/-- The environment `env0` for the working tree `/clone`. -/
def envClone : Env := { env0 with root := ["clone"] }

/-- Two fresh working trees `/repo` and `/clone`. -/
def fsTwoFresh : FS := fun p =>
  match p with
  | ["repo"] => some (.dir 0o755)
  | ["clone"] => some (.dir 0o755)
  | ["home"] => some (.dir 0o755)
  | ["home", "cfg"] => some (.dir 0o755)
  | _ => none

/-- The state after `Init` on `/repo` from `fsTwoFresh`. -/
def stAfterFirst : St := (runInit env0 2 fsTwoFresh 0).state (St.start fsTwoFresh)

/-- The state after `Init` on `/clone`, run after the one on `/repo`. -/
def stAfterSecond : St :=
  (runInit envClone 2 stAfterFirst.fs stAfterFirst.genCalls).state stAfterFirst

/-- The filesystem `fsRealDirLink` with a `config.toml` that is not TOML. -/
def fsRealDirLinkBadConfig : FS :=
  fsRealDirLink.insert ["repo", ".private", "config.toml"] (.file 0o644 "not toml")

/-- Two working trees without a config whose `.private/files` both link to `/shared`. -/
def fsTwoLinked : FS := fun p =>
  match p with
  | ["repo"] => some (.dir 0o755)
  | ["repo", ".private"] => some (.dir 0o755)
  | ["repo", ".private", "files"] => some (.symlink ["shared"])
  | ["clone"] => some (.dir 0o755)
  | ["clone", ".private"] => some (.dir 0o755)
  | ["clone", ".private", "files"] => some (.symlink ["shared"])
  | ["shared"] => some (.dir 0o755)
  | ["home"] => some (.dir 0o755)
  | ["home", "cfg"] => some (.dir 0o755)
  | _ => none

theorem tomlDecode_encode (n : String) : tomlDecode (tomlEncode n) = some (some n) := by
  have hdata : (tomlEncode n).data = "folderName = '".data ++ (n.data ++ ['\'', '\n']) := by
    simp [tomlEncode, String.data_append, List.append_assoc]
  have hne : tomlEncode n ≠ "" := by
    intro h
    have := congrArg String.data h
    rw [hdata] at this
    simp at this
  unfold tomlDecode
  simp only [hne, if_false, hdata]
  have h1 : "folderName = '".data.isPrefixOf ("folderName = '".data ++ (n.data ++ ['\'', '\n']))
      = true := by
    rw [List.isPrefixOf_iff_prefix]
    exact List.prefix_append _ _
  have h2 : ['\'', '\n'].isSuffixOf ("folderName = '".data ++ (n.data ++ ['\'', '\n']))
      = true := by
    rw [List.isSuffixOf_iff_suffix]
    exact ⟨"folderName = '".data ++ n.data, by simp [List.append_assoc]⟩
  simp only [h1, h2, and_self, if_true]
  have h3 : (List.drop "folderName = '".data.length
      ("folderName = '".data ++ (n.data ++ ['\'', '\n']))) = n.data ++ ['\'', '\n'] := by
    simp
  have h4 : ("folderName = '".data ++ (n.data ++ ['\'', '\n'])).length
      - "folderName = '".data.length - 2 = n.data.length := by
    simp [List.length_append]
  rw [h3, h4]
  simp

/-! ## Path resolution lemmas -/

theorem Grows.refl (fs : FS) : Grows fs fs := fun _ _ h => h

theorem Grows.trans {a b c : FS} (h1 : Grows a b) (h2 : Grows b c) : Grows a c :=
  fun q n h => h2 q n (h1 q n h)

theorem Grows.insert {fs : FS} {loc : Path} (n : Node) (h : fs loc = none) :
    Grows fs (fs.insert loc n) := by
  intro q m hq
  unfold FS.insert
  by_cases hql : q = loc
  · subst hql; rw [h] at hq; cases hq
  · simp [hql, hq]

theorem walkFrom_mono {fs fs2 : FS} (h : Grows fs fs2) (f : Bool)
    (r r2 : List String → Except Errno (Path × Option Node))
    (hr : ∀ q l x, r q = .ok (l, some x) → r2 q = .ok (l, some x)) :
    ∀ (rest : List String) (cur l : Path) (x : Node),
      walkFrom fs f r cur rest = .ok (l, some x) → walkFrom fs2 f r2 cur rest = .ok (l, some x) := by
  intro rest
  induction rest with
  | nil => intro cur l x hw; simpa [walkFrom] using hw
  | cons c rest ih =>
    intro cur l x hw
    unfold walkFrom at hw ⊢
    cases hl : fs (cur ++ [c]) with
    | none =>
      rw [hl] at hw
      by_cases hrest : rest = [] <;> simp [hrest] at hw
    | some n =>
      rw [hl] at hw
      rw [h _ _ hl]
      cases n with
      | file m s => exact hw
      | dir m =>
        by_cases hrest : rest = []
        · simpa [hrest] using hw
        · simp only [hrest, if_false] at hw ⊢
          exact ih _ _ _ hw
      | symlink t =>
        by_cases hc : rest = [] ∧ f = false
        · simpa [hc] using hw
        · simp only [hc, if_false] at hw ⊢
          exact hr _ _ _ hw

theorem walk_mono {fs fs2 : FS} (h : Grows fs fs2) (f : Bool) :
    ∀ (k : Nat) (p l : Path) (x : Node),
      walk fs f k p = .ok (l, some x) → walk fs2 f k p = .ok (l, some x) := by
  intro k
  induction k with
  | zero => intro p l x hw; simp [walk] at hw
  | succ k ih =>
    intro p l x hw
    exact walkFrom_mono h f _ _ ih p [] l x hw

theorem lstat_mono {fs fs2 : FS} (h : Grows fs fs2) {p : Path} {n : Node}
    (hl : lstat fs p = .ok n) : lstat fs2 p = .ok n := by
  unfold lstat resolve at hl ⊢
  cases hw : walk fs false (maxSymlinks + 1) p with
  | error e => rw [hw] at hl; cases hl
  | ok r =>
    obtain ⟨l, o⟩ := r
    rw [hw] at hl
    cases o with
    | none => cases hl
    | some x =>
      rw [walk_mono h false _ _ _ _ hw]
      exact hl

theorem stat_mono {fs fs2 : FS} (h : Grows fs fs2) {p : Path} {n : Node}
    (hl : stat fs p = .ok n) : stat fs2 p = .ok n := by
  unfold stat resolve at hl ⊢
  cases hw : walk fs true (maxSymlinks + 1) p with
  | error e => rw [hw] at hl; cases hl
  | ok r =>
    obtain ⟨l, o⟩ := r
    rw [hw] at hl
    cases o with
    | none => cases hl
    | some x =>
      rw [walk_mono h true _ _ _ _ hw]
      exact hl

theorem walkFrom_free {fs : FS} (f : Bool) (r : List String → Except Errno (Path × Option Node))
    (hr : ∀ q l, r q = .ok (l, none) → fs l = none) :
    ∀ (rest : List String) (cur l : Path),
      walkFrom fs f r cur rest = .ok (l, none) → fs l = none := by
  intro rest
  induction rest with
  | nil => intro cur l hw; simp [walkFrom] at hw
  | cons c rest ih =>
    intro cur l hw
    unfold walkFrom at hw
    cases hl : fs (cur ++ [c]) with
    | none =>
      rw [hl] at hw
      by_cases hrest : rest = []
      · simp [hrest] at hw
        rw [← hw]; exact hl
      · simp [hrest] at hw
    | some n =>
      rw [hl] at hw
      cases n with
      | file m s => by_cases hrest : rest = [] <;> simp [hrest] at hw
      | dir m =>
        by_cases hrest : rest = []
        · simp [hrest] at hw
        · simp only [hrest, if_false] at hw
          exact ih _ _ hw
      | symlink t =>
        by_cases hc : rest = [] ∧ f = false
        · simp [hc] at hw
        · simp only [hc, if_false] at hw
          exact hr _ _ hw

theorem walk_free {fs : FS} (f : Bool) :
    ∀ (k : Nat) (p l : Path), walk fs f k p = .ok (l, none) → fs l = none := by
  intro k
  induction k with
  | zero => intro p l hw; simp [walk] at hw
  | succ k ih => intro p l hw; exact walkFrom_free f _ ih p [] l hw

theorem walkFrom_follow {fs : FS} (r r2 : List String → Except Errno (Path × Option Node))
    (hr : ∀ q, NotLink (r q) → r2 q = r q) :
    ∀ (rest : List String) (cur : Path),
      NotLink (walkFrom fs false r cur rest) →
      walkFrom fs true r2 cur rest = walkFrom fs false r cur rest := by
  intro rest
  induction rest with
  | nil => intro cur _; simp [walkFrom]
  | cons c rest ih =>
    intro cur hn
    unfold walkFrom at hn ⊢
    cases hl : fs (cur ++ [c]) with
    | none => simp
    | some n =>
      rw [hl] at hn
      cases n with
      | file m s => simp
      | dir m =>
        by_cases hrest : rest = []
        · simp [hrest]
        · simp only [hrest, if_false] at hn ⊢
          exact ih _ hn
      | symlink t =>
        by_cases hrest : rest = []
        · simp [hrest, NotLink] at hn
        · simp only [hrest, false_and, if_false] at hn ⊢
          exact hr _ hn

theorem walk_follow {fs : FS} :
    ∀ (k : Nat) (p : Path), NotLink (walk fs false k p) → walk fs true k p = walk fs false k p := by
  intro k
  induction k with
  | zero => intro p _; simp [walk]
  | succ k ih => intro p hn; exact walkFrom_follow _ _ ih p [] hn

theorem stat_eq_of_lstat_error {fs : FS} {p : Path} {e : Errno} (h : lstat fs p = .error e) :
    stat fs p = .error e := by
  unfold lstat resolve at h
  unfold stat resolve
  have hn : NotLink (walk fs false (maxSymlinks + 1) p) := by
    cases hw : walk fs false (maxSymlinks + 1) p with
    | error e => trivial
    | ok r =>
      obtain ⟨l, o⟩ := r
      cases o with
      | none => trivial
      | some x => rw [hw] at h; cases h
  rw [walk_follow _ _ hn]
  exact h

theorem resolve_follow_of_lstat_error {fs : FS} {p : Path} {e : Errno}
    (h : lstat fs p = .error e) : resolve fs true p = resolve fs false p := by
  unfold lstat resolve at h
  unfold resolve
  apply walk_follow
  cases hw : walk fs false (maxSymlinks + 1) p with
  | error e => trivial
  | ok r =>
    obtain ⟨l, o⟩ := r
    cases o with
    | none => trivial
    | some x => rw [hw] at h; cases h

theorem walkFrom_insert_found {fs : FS} {loc : Path} (n : Node) (f : Bool)
    (hfree : fs loc = none) (hn : n.isSymlink = false ∨ f = false)
    (r r2 : List String → Except Errno (Path × Option Node))
    (hr : ∀ q, r q = .ok (loc, none) → r2 q = .ok (loc, some n)) :
    ∀ (rest : List String) (cur : Path),
      walkFrom fs f r cur rest = .ok (loc, none) →
      walkFrom (fs.insert loc n) f r2 cur rest = .ok (loc, some n) := by
  intro rest
  induction rest with
  | nil => intro cur hw; simp [walkFrom] at hw
  | cons c rest ih =>
    intro cur hw
    unfold walkFrom at hw ⊢
    cases hl : fs (cur ++ [c]) with
    | none =>
      rw [hl] at hw
      by_cases hrest : rest = []
      · simp [hrest] at hw
        subst hrest
        have hi : FS.insert fs loc n (cur ++ [c]) = some n := by simp [FS.insert, hw]
        rw [hi]
        cases n with
        | file m s => simp [hw]
        | dir m => simp [hw]
        | symlink t =>
          rcases hn with hn | hn
          · simp [Node.isSymlink] at hn
          · simp [hn, hw]
      · simp [hrest] at hw
    | some x =>
      rw [hl] at hw
      have hne : cur ++ [c] ≠ loc := by
        intro he; rw [he, hfree] at hl; cases hl
      have hi : FS.insert fs loc n (cur ++ [c]) = some x := by simp [FS.insert, hne, hl]
      rw [hi]
      cases x with
      | file m s => by_cases hrest : rest = [] <;> simp [hrest] at hw
      | dir m =>
        by_cases hrest : rest = []
        · simp [hrest] at hw
        · simp only [hrest, if_false] at hw ⊢
          exact ih _ hw
      | symlink t =>
        by_cases hc : rest = [] ∧ f = false
        · simp [hc] at hw
        · simp only [hc, if_false] at hw ⊢
          exact hr _ hw

theorem walk_insert_found {fs : FS} {loc : Path} (n : Node) (f : Bool)
    (hn : n.isSymlink = false ∨ f = false) :
    ∀ (k : Nat) (p : Path), walk fs f k p = .ok (loc, none) →
      walk (fs.insert loc n) f k p = .ok (loc, some n) := by
  intro k
  induction k with
  | zero => intro p hw; simp [walk] at hw
  | succ k ih =>
    intro p hw
    exact walkFrom_insert_found n f (walk_free f _ _ _ hw) hn _ _ ih p [] hw

theorem mkdir_grows (um : Nat) (fs : FS) (p : Path) (perm : Nat) :
    Grows fs (mkdir um fs p perm).2 := by
  unfold mkdir resolve
  cases hw : walk fs false (maxSymlinks + 1) p with
  | error e => exact Grows.refl fs
  | ok r =>
    obtain ⟨l, o⟩ := r
    cases o with
    | none => exact Grows.insert _ (walk_free false _ _ _ hw)
    | some x => exact Grows.refl fs

theorem symlink_grows (fs : FS) (t p : Path) : Grows fs (symlink fs t p).2 := by
  unfold symlink resolve
  cases hw : walk fs false (maxSymlinks + 1) p with
  | error e => exact Grows.refl fs
  | ok r =>
    obtain ⟨l, o⟩ := r
    cases o with
    | none => exact Grows.insert _ (walk_free false _ _ _ hw)
    | some x => exact Grows.refl fs

theorem createWrite_grows (um : Nat) {fs : FS} {p : Path} {e : Errno}
    (h : lstat fs p = .error e) (content : String) :
    Grows fs (createWrite um fs p content).2 := by
  have hr := resolve_follow_of_lstat_error h
  unfold createWrite
  rw [hr]
  unfold lstat at h
  unfold resolve at h ⊢
  cases hw : walk fs false (maxSymlinks + 1) p with
  | error e => exact Grows.refl fs
  | ok r =>
    obtain ⟨l, o⟩ := r
    cases o with
    | none => exact Grows.insert _ (walk_free false _ _ _ hw)
    | some x => rw [hw] at h; cases h

theorem mkdirAllRev_grows (um perm : Nat) :
    ∀ (rev : List String) (fs : FS), Grows fs (mkdirAllRev um perm rev fs).2 := by
  intro rev
  induction rev with
  | nil => intro fs; exact Grows.refl fs
  | cons c rp ih =>
    intro fs
    unfold mkdirAllRev
    simp only
    cases hs : stat fs (c :: rp).reverse with
    | ok n => by_cases hd : n.isDir <;> simp [hd] <;> exact Grows.refl fs
    | error e =>
      simp only
      have h1 := ih fs
      cases hm : mkdirAllRev um perm rp fs with
      | mk res fs1 =>
        rw [hm] at h1
        cases res with
        | error e1 => exact h1
        | ok u =>
          simp only
          have h2 := mkdir_grows um fs1 (c :: rp).reverse perm
          cases hk : mkdir um fs1 (c :: rp).reverse perm with
          | mk res2 fs2 =>
            rw [hk] at h2
            cases res2 with
            | ok u2 => exact h1.trans h2
            | error e2 =>
              simp only
              cases hl : lstat fs2 (c :: rp).reverse with
              | error e3 => exact h1.trans h2
              | ok n => by_cases hd : n.isDir <;> simp [hd] <;> exact h1.trans h2

theorem mkdirAll_grows (um : Nat) (fs : FS) (p : Path) (perm : Nat) :
    Grows fs (mkdirAll um fs p perm).2 :=
  mkdirAllRev_grows um perm p.reverse fs

theorem stat_of_lstat_dir {fs : FS} {p : Path} {m : Nat} (h : lstat fs p = .ok (.dir m)) :
    stat fs p = .ok (.dir m) := by
  unfold lstat resolve at h
  unfold stat resolve
  have hn : NotLink (walk fs false (maxSymlinks + 1) p) := by
    cases hw : walk fs false (maxSymlinks + 1) p with
    | error e => trivial
    | ok r =>
      obtain ⟨l, o⟩ := r
      cases o with
      | none => trivial
      | some x =>
        rw [hw] at h
        cases x with
        | symlink t => cases h
        | file a b => trivial
        | dir a => trivial
  rw [walk_follow _ _ hn]
  exact h

theorem mkdir_ok {um : Nat} {fs fs2 : FS} {p : Path} {perm : Nat}
    (h : mkdir um fs p perm = (.ok (), fs2)) :
    lstat fs2 p = .ok (.dir (applyUmask um perm)) := by
  unfold mkdir resolve at h
  cases hw : walk fs false (maxSymlinks + 1) p with
  | error e => rw [hw] at h; cases h
  | ok r =>
    obtain ⟨l, o⟩ := r
    rw [hw] at h
    cases o with
    | some x => cases h
    | none =>
      simp only [Prod.mk.injEq, true_and] at h
      subst h
      unfold lstat resolve
      rw [walk_insert_found (.dir (applyUmask um perm)) false (Or.inr rfl) _ _ hw]

theorem mkdirAllRev_ok (um perm : Nat) :
    ∀ (rev : List String) (fs : FS), (mkdirAllRev um perm rev fs).1 = .ok () →
      ∃ m, stat (mkdirAllRev um perm rev fs).2 rev.reverse = .ok (.dir m) := by
  intro rev
  cases rev with
  | nil => intro fs _; exact ⟨0o755, rfl⟩
  | cons c rp =>
    intro fs
    unfold mkdirAllRev
    simp only
    cases hs : stat fs (c :: rp).reverse with
    | ok n =>
      cases n with
      | dir m => intro _; exact ⟨m, by simpa [Node.isDir] using hs⟩
      | file a b => simp [Node.isDir]
      | symlink t => simp [Node.isDir]
    | error e =>
      simp only
      cases hm : mkdirAllRev um perm rp fs with
      | mk res fs1 =>
        cases res with
        | error e1 => simp
        | ok u =>
          simp only
          cases hk : mkdir um fs1 (c :: rp).reverse perm with
          | mk res2 fs2 =>
            cases res2 with
            | ok u2 =>
              intro _
              exact ⟨_, stat_of_lstat_dir (mkdir_ok hk)⟩
            | error e2 =>
              simp only
              cases hl : lstat fs2 (c :: rp).reverse with
              | error e3 => simp
              | ok n =>
                cases n with
                | dir m => intro _; exact ⟨m, by simpa [Node.isDir] using stat_of_lstat_dir hl⟩
                | file a b => simp [Node.isDir]
                | symlink t => simp [Node.isDir]

theorem mkdir_new (um : Nat) (fs : FS) (p : Path) (perm : Nat) :
    ∀ q n, (mkdir um fs p perm).2 q = some n →
      fs q = some n ∨ n = .dir (applyUmask um perm) := by
  intro q n
  unfold mkdir
  cases hw : resolve fs false p with
  | error e => exact fun h => Or.inl h
  | ok r =>
    obtain ⟨l, o⟩ := r
    cases o with
    | some x => exact fun h => Or.inl h
    | none =>
      simp only [FS.insert]
      by_cases hq : q = l
      · simp only [hq, if_true]; intro h; right; cases h; rfl
      · simp only [hq, if_false]; exact fun h => Or.inl h

theorem mkdirAllRev_new (um perm : Nat) :
    ∀ (rev : List String) (fs : FS) (q : Path) (n : Node),
      (mkdirAllRev um perm rev fs).2 q = some n →
        fs q = some n ∨ n = .dir (applyUmask um perm) := by
  intro rev
  induction rev with
  | nil => intro fs q n h; exact Or.inl h
  | cons c rp ih =>
    intro fs q n
    unfold mkdirAllRev
    simp only
    cases hs : stat fs (c :: rp).reverse with
    | ok x => by_cases hd : x.isDir <;> simp [hd] <;> exact fun h => Or.inl h
    | error e =>
      simp only
      have h1 := ih fs q n
      cases hm : mkdirAllRev um perm rp fs with
      | mk res fs1 =>
        rw [hm] at h1
        cases res with
        | error e1 => exact h1
        | ok u =>
          simp only
          have h2 := mkdir_new um fs1 (c :: rp).reverse perm q n
          cases hk : mkdir um fs1 (c :: rp).reverse perm with
          | mk res2 fs2 =>
            rw [hk] at h2
            have key : fs2 q = some n → fs q = some n ∨ n = .dir (applyUmask um perm) := by
              intro h
              rcases h2 h with h3 | h3
              · exact h1 h3
              · exact Or.inr h3
            cases res2 with
            | ok u2 => exact key
            | error e2 =>
              simp only
              cases hl : lstat fs2 (c :: rp).reverse with
              | error e3 => exact key
              | ok x => by_cases hd : x.isDir <;> simp [hd] <;> exact key

theorem walkFrom_parent {fs : FS} (c : String)
    (r : List String → Except Errno (Path × Option Node))
    (hr : ∀ q l o, r (q ++ [c]) = .ok (l, o) → ∃ l2 m, r q = .ok (l2, some (.dir m))) :
    ∀ (q : List String) (cur l : Path) (o : Option Node),
      walkFrom fs true r cur (q ++ [c]) = .ok (l, o) →
      ∃ l2 m, walkFrom fs true r cur q = .ok (l2, some (.dir m)) := by
  intro q
  induction q with
  | nil => intro cur l o _; exact ⟨cur, 0o755, rfl⟩
  | cons d q ih =>
    intro cur l o hw
    rw [List.cons_append] at hw
    unfold walkFrom at hw ⊢
    have hne : q ++ [c] ≠ [] := by simp
    cases hl : fs (cur ++ [d]) with
    | none => rw [hl] at hw; simp [hne] at hw
    | some n =>
      rw [hl] at hw
      cases n with
      | file m s => simp [hne] at hw
      | dir m =>
        simp only [hne, if_false] at hw
        by_cases hq : q = []
        · exact ⟨cur ++ [d], m, by simp [hq]⟩
        · simp only [hq, if_false]
          exact ih _ _ _ hw
      | symlink t =>
        simp only [hne, false_and, if_false] at hw
        have h2 : ¬ (q = [] ∧ true = false) := by simp
        simp only [h2, if_false]
        rw [← List.append_assoc] at hw
        exact hr _ _ _ hw

theorem walk_parent {fs : FS} (c : String) :
    ∀ (k : Nat) (q : List String) (l : Path) (o : Option Node),
      walk fs true k (q ++ [c]) = .ok (l, o) →
      ∃ l2 m, walk fs true k q = .ok (l2, some (.dir m)) := by
  intro k
  induction k with
  | zero => intro q l o hw; simp [walk] at hw
  | succ k ih => intro q l o hw; exact walkFrom_parent c _ ih q [] l o hw

theorem stat_parent {fs : FS} {p : Path} {c : String} {n : Node}
    (h : stat fs (p ++ [c]) = .ok n) : ∃ m, stat fs p = .ok (.dir m) := by
  unfold stat resolve at h ⊢
  cases hw : walk fs true (maxSymlinks + 1) (p ++ [c]) with
  | error e => rw [hw] at h; cases h
  | ok r =>
    obtain ⟨l, o⟩ := r
    obtain ⟨l2, m, h2⟩ := walk_parent c _ _ _ _ hw
    exact ⟨m, by rw [h2]⟩

theorem stat_ancestor {fs : FS} (a : Path) :
    ∀ (b : Path) (m : Nat), stat fs (a ++ b) = .ok (.dir m) → ∃ m2, stat fs a = .ok (.dir m2) := by
  intro b
  induction b using List.reverseRecOn with
  | nil => intro m h; exact ⟨m, by simpa using h⟩
  | append_singleton b c ih =>
    intro m h
    rw [← List.append_assoc] at h
    obtain ⟨m1, h1⟩ := stat_parent h
    exact ih m1 h1

theorem walkFrom_parent_nofollow {fs : FS} (c : String)
    (r : List String → Except Errno (Path × Option Node))
    (hr : ∀ q l o, r (q ++ [c]) = .ok (l, o) →
      ∃ l2 x, r q = .ok (l2, some x) ∧ (x.isDir = true ∨ x.isSymlink = true)) :
    ∀ (q : List String) (cur l : Path) (o : Option Node),
      walkFrom fs false r cur (q ++ [c]) = .ok (l, o) →
      ∃ l2 x, walkFrom fs false r cur q = .ok (l2, some x) ∧
        (x.isDir = true ∨ x.isSymlink = true) := by
  intro q
  induction q with
  | nil => intro cur l o _; exact ⟨cur, rootNode, rfl, Or.inl rfl⟩
  | cons d q ih =>
    intro cur l o hw
    rw [List.cons_append] at hw
    unfold walkFrom at hw ⊢
    have hne : q ++ [c] ≠ [] := by simp
    cases hl : fs (cur ++ [d]) with
    | none => rw [hl] at hw; simp [hne] at hw
    | some n =>
      rw [hl] at hw
      cases n with
      | file m s => simp [hne] at hw
      | dir m =>
        simp only [hne, if_false] at hw
        by_cases hq : q = []
        · exact ⟨cur ++ [d], .dir m, by simp [hq], Or.inl rfl⟩
        · simp only [hq, if_false]
          exact ih _ _ _ hw
      | symlink t =>
        simp only [hne, false_and, if_false] at hw
        by_cases hq : q = []
        · exact ⟨cur ++ [d], .symlink t, by simp [hq], Or.inr rfl⟩
        · simp only [hq, false_and, if_false]
          rw [← List.append_assoc] at hw
          exact hr _ _ _ hw

theorem walk_parent_nofollow {fs : FS} (c : String) :
    ∀ (k : Nat) (q : List String) (l : Path) (o : Option Node),
      walk fs false k (q ++ [c]) = .ok (l, o) →
      ∃ l2 x, walk fs false k q = .ok (l2, some x) ∧
        (x.isDir = true ∨ x.isSymlink = true) := by
  intro k
  induction k with
  | zero => intro q l o hw; simp [walk] at hw
  | succ k ih => intro q l o hw; exact walkFrom_parent_nofollow c _ ih q [] l o hw

theorem lstat_parent {fs : FS} {p : Path} {c : String} {n : Node}
    (h : lstat fs (p ++ [c]) = .ok n) :
    ∃ x, lstat fs p = .ok x ∧ (x.isDir = true ∨ x.isSymlink = true) := by
  unfold lstat resolve at h ⊢
  cases hw : walk fs false (maxSymlinks + 1) (p ++ [c]) with
  | error e => rw [hw] at h; cases h
  | ok r =>
    obtain ⟨l, o⟩ := r
    obtain ⟨l2, x, h2, hx⟩ := walk_parent_nofollow c _ _ _ _ hw
    exact ⟨x, by rw [h2], hx⟩

theorem walkFrom_one {fs : FS} (r : List String → Except Errno (Path × Option Node))
    (cur : Path) (c : String) : walkFrom fs false r cur [c] = childAt fs cur c := by
  unfold walkFrom childAt
  cases hl : fs (cur ++ [c]) with
  | none => simp
  | some n =>
    cases n with
    | file a b => simp
    | dir a => simp
    | symlink t => simp

theorem walkFrom_snoc {fs : FS} (c : String)
    (r r2 : List String → Except Errno (Path × Option Node))
    (hr : ∀ q l m, r q = .ok (l, some (.dir m)) → r2 (q ++ [c]) = childAt fs l c) :
    ∀ (q : List String) (cur l : Path) (m : Nat),
      walkFrom fs true r cur q = .ok (l, some (.dir m)) →
      walkFrom fs false r2 cur (q ++ [c]) = childAt fs l c := by
  intro q
  induction q with
  | nil =>
    intro cur l m hw
    simp only [walkFrom, Except.ok.injEq, Prod.mk.injEq] at hw
    rw [List.nil_append, walkFrom_one, hw.1]
  | cons d q ih =>
    intro cur l m hw
    rw [List.cons_append]
    unfold walkFrom at hw
    have hne : q ++ [c] ≠ [] := by simp
    cases hl : fs (cur ++ [d]) with
    | none =>
      rw [hl] at hw
      by_cases hq : q = [] <;> simp [hq] at hw
    | some n =>
      rw [hl] at hw
      cases n with
      | file a b => by_cases hq : q = [] <;> simp [hq] at hw
      | dir a =>
        by_cases hq : q = []
        · subst hq
          simp only [if_true, Except.ok.injEq, Prod.mk.injEq] at hw
          unfold walkFrom
          rw [hl]
          simp only [List.nil_append, List.cons_ne_nil, if_false]
          rw [walkFrom_one, hw.1]
        · simp only [hq, if_false] at hw
          unfold walkFrom
          rw [hl]
          simp only [hne, if_false]
          exact ih _ _ _ hw
      | symlink t =>
        have h2 : ¬ (q = [] ∧ true = false) := by simp
        simp only [h2, if_false] at hw
        unfold walkFrom
        rw [hl]
        simp only [hne, false_and, if_false]
        rw [← List.append_assoc]
        exact hr _ _ _ hw

theorem walk_snoc {fs : FS} (c : String) :
    ∀ (k : Nat) (q : List String) (l : Path) (m : Nat),
      walk fs true k q = .ok (l, some (.dir m)) →
      walk fs false k (q ++ [c]) = childAt fs l c := by
  intro k
  induction k with
  | zero => intro q l m hw; simp [walk] at hw
  | succ k ih => intro q l m hw; exact walkFrom_snoc c _ _ ih q [] l m hw

/-- An entry that appears below a directory after entries were added, all of them
directories, is one of these directories. -/
theorem lstat_child_after {fs fs1 : FS} {p : Path} {c : String} {m : Nat}
    (hp : stat fs p = .ok (.dir m)) (habs : lstat fs (p ++ [c]) = .error .ENOENT)
    (hg : Grows fs fs1) (hnew : ∀ q n, fs1 q = some n → fs q = some n ∨ n.isDir = true) :
    lstat fs1 (p ++ [c]) = .error .ENOENT ∨ ∃ m1, lstat fs1 (p ++ [c]) = .ok (.dir m1) := by
  unfold stat resolve at hp
  cases hw : walk fs true (maxSymlinks + 1) p with
  | error e => rw [hw] at hp; cases hp
  | ok r =>
    obtain ⟨l, o⟩ := r
    rw [hw] at hp
    cases o with
    | none => cases hp
    | some x =>
      simp only [Except.ok.injEq] at hp
      subst hp
      have h0 := walk_snoc c _ _ _ _ hw
      have h1 := walk_snoc c _ _ _ _ (walk_mono hg true _ _ _ _ hw)
      unfold lstat resolve at habs ⊢
      rw [h0] at habs
      rw [h1]
      unfold childAt at habs ⊢
      cases hl1 : fs1 (l ++ [c]) with
      | none => exact Or.inl rfl
      | some n =>
        rcases hnew _ _ hl1 with h | h
        · rw [h] at habs; cases habs
        · cases n with
          | dir a => exact Or.inr ⟨a, rfl⟩
          | file a b => cases h
          | symlink t => cases h

theorem mkdirAll_ok {um : Nat} {fs : FS} {p : Path} {perm : Nat}
    (h : (mkdirAll um fs p perm).1 = .ok ()) :
    ∃ m, stat (mkdirAll um fs p perm).2 p = .ok (.dir m) := by
  have := mkdirAllRev_ok um perm p.reverse fs h
  rwa [List.reverse_reverse] at this

theorem mkdirAll_new (um : Nat) (fs : FS) (p : Path) (perm : Nat) :
    ∀ q n, (mkdirAll um fs p perm).2 q = some n →
      fs q = some n ∨ n = .dir (applyUmask um perm) :=
  mkdirAllRev_new um perm p.reverse fs

theorem createWrite_read {um : Nat} {fs fs2 : FS} {p : Path} {content : String}
    (h : lstat fs p = .error .ENOENT) (hc : createWrite um fs p content = (.ok (), fs2)) :
    readFile fs2 p = .ok content ∧
    ∀ q n, fs2 q = some n → fs q = some n ∨ n = .file (applyUmask um 0o666) content := by
  have hr := resolve_follow_of_lstat_error h
  unfold createWrite at hc
  rw [hr] at hc
  unfold lstat at h
  cases hw : resolve fs false p with
  | error e => rw [hw] at hc; cases hc
  | ok r =>
    obtain ⟨l, o⟩ := r
    rw [hw] at hc h
    cases o with
    | some x => cases h
    | none =>
      simp only [Prod.mk.injEq, true_and] at hc
      subst hc
      rw [← hr] at hw
      unfold resolve at hw
      have h2 := walk_insert_found (.file (applyUmask um 0o666) content) true (Or.inl rfl) _ _ hw
      refine ⟨?_, ?_⟩
      · unfold readFile stat resolve
        rw [h2]
      · intro q n hq
        unfold FS.insert at hq
        by_cases hql : q = l
        · simp only [hql, if_true, Option.some.injEq] at hq
          exact Or.inr hq.symm
        · simp only [hql, if_false] at hq
          exact Or.inl hq

theorem reserveLoop_exact (env : Env) (c : String) :
    ∀ (i : Nat) (s : St) (fuel : Nat),
      (∀ k, k < i → ∃ ck n, generateFolderName env (s.genCalls + k) = some ck ∧
        stat s.fs (targetPath env ck) = .ok n) →
      generateFolderName env (s.genCalls + i) = some c →
      stat s.fs (targetPath env c) = .error .ENOENT →
      i < fuel →
      reserveLoop env fuel s = some
        (match mkdirAll env.umask s.fs (targetPath env c) 0o777 with
         | (.ok (), fs1) =>
           (.ok (), { fs := fs1, genCalls := s.genCalls + i + 1, config := ⟨c⟩ })
         | (.error e, fs1) =>
           (.error (.sys e), { fs := fs1, genCalls := s.genCalls + i + 1, config := s.config })) := by
  intro i
  induction i with
  | zero =>
    intro s fuel _ hgen hfree hfuel
    obtain ⟨f, rfl⟩ : ∃ f, fuel = f + 1 := ⟨fuel - 1, by omega⟩
    rw [Nat.add_zero] at hgen
    unfold reserveLoop
    simp only [hgen, hfree, if_true]
    cases hm : mkdirAll env.umask s.fs (targetPath env c) 0o777 with
    | mk res fs1 =>
      cases res with
      | error e => rfl
      | ok u => rfl
  | succ i ih =>
    intro s fuel hskip hgen hfree hfuel
    obtain ⟨f, rfl⟩ : ∃ f, fuel = f + 1 := ⟨fuel - 1, by omega⟩
    obtain ⟨c0, n0, hg0, hs0⟩ := hskip 0 (Nat.succ_pos i)
    rw [Nat.add_zero] at hg0
    unfold reserveLoop
    simp only [hg0, hs0]
    have := ih { s with genCalls := s.genCalls + 1 } f
      (by
        intro k hk
        obtain ⟨ck, n, h1, h2⟩ := hskip (k + 1) (by omega)
        refine ⟨ck, n, ?_, h2⟩
        have : s.genCalls + 1 + k = s.genCalls + (k + 1) := by omega
        simpa [this] using h1)
      (by
        have : s.genCalls + 1 + i = s.genCalls + (i + 1) := by omega
        simpa [this] using hgen)
      hfree (by omega)
    rw [this]
    have e1 : s.genCalls + 1 + i + 1 = s.genCalls + (i + 1) + 1 := by omega
    simp only [e1]

/-! ## Lemmas on the steps of `Init` -/

theorem andThen_some {o : Outcome} {f : St → Outcome} {r : Except Err Unit × St}
    (h : o.andThen f = some r) :
    (∃ e s1, o = some (.error e, s1) ∧ r = (.error e, s1)) ∨
    (∃ s1, o = some (.ok (), s1) ∧ f s1 = some r) := by
  cases o with
  | none => simp [Outcome.andThen] at h
  | some x =>
    obtain ⟨res, s1⟩ := x
    cases res with
    | error e =>
      simp only [Outcome.andThen, Option.some.injEq] at h
      exact Or.inl ⟨e, s1, rfl, h.symm⟩
    | ok u => exact Or.inr ⟨s1, rfl, h⟩

theorem andThen_assoc (o : Outcome) (f g : St → Outcome) :
    (o.andThen f).andThen g = o.andThen (fun s => (f s).andThen g) := by
  cases o with
  | none => rfl
  | some x =>
    obtain ⟨res, s1⟩ := x
    cases res with
    | error e => rfl
    | ok u => rfl

theorem Init_split (env : Env) (fuel : Nat) (s : St) :
    Init env fuel s
      = (initBeforeLink env fuel s).andThen
          (createDirSymlink (localPrivateFolderPath env) (initSymlink env)) := by
  unfold Init initBeforeLink
  simp only [andThen_assoc]

theorem Keeps.andThen {s : St} {o : Outcome} {f : St → Outcome} (h1 : Keeps s o)
    (h2 : ∀ s1, o = some (.ok (), s1) → Keeps s1 (f s1)) : Keeps s (o.andThen f) := by
  intro r hr
  rcases andThen_some hr with ⟨e, s1, ho, hre⟩ | ⟨s1, ho, hf⟩
  · rw [hre]; exact h1 _ ho
  · obtain ⟨g1, c1⟩ := h1 _ ho
    obtain ⟨g2, c2⟩ := h2 s1 ho r hf
    exact ⟨g1.trans g2, Nat.le_trans c1 c2⟩

theorem createDir_keeps (um : Nat) (dir : Path) (perm : Nat) (s : St) :
    Keeps s (createDir um dir perm s) := by
  intro r hr
  unfold createDir at hr
  cases hl : lstat s.fs dir with
  | ok n =>
    rw [hl] at hr
    by_cases hd : n.isDir <;> simp [hd] at hr <;> subst hr <;> exact ⟨Grows.refl _, Nat.le_refl _⟩
  | error e =>
    rw [hl] at hr
    by_cases he : e = .ENOENT
    · simp only [he, if_true] at hr
      have hg := mkdirAll_grows um s.fs dir perm
      cases hm : mkdirAll um s.fs dir perm with
      | mk res fs1 =>
        rw [hm] at hr hg
        cases res with
        | error e1 => simp at hr; subst hr; exact ⟨hg, Nat.le_refl _⟩
        | ok u => simp at hr; subst hr; exact ⟨hg, Nat.le_refl _⟩
    · simp [he] at hr; subst hr; exact ⟨Grows.refl _, Nat.le_refl _⟩

theorem createFile_keeps (path : Path) (create : Path → St → Outcome) (s : St)
    (hc : lstat s.fs path = .error .ENOENT → Keeps s (create path s)) :
    Keeps s (createFile path create s) := by
  intro r hr
  unfold createFile at hr
  cases hl : lstat s.fs path with
  | ok n =>
    rw [hl] at hr
    by_cases hd : n.isDir <;> simp [hd] at hr <;> subst hr <;> exact ⟨Grows.refl _, Nat.le_refl _⟩
  | error e =>
    rw [hl] at hr
    by_cases he : e = .ENOENT
    · simp only [he, if_true] at hr
      subst he
      exact hc hl r hr
    · simp [he] at hr; subst hr; exact ⟨Grows.refl _, Nat.le_refl _⟩

theorem createDirSymlink_keeps (dir : Path) (create : Path → St → Outcome) (s : St)
    (hc : lstat s.fs dir = .error .ENOENT → Keeps s (create dir s)) :
    Keeps s (createDirSymlink dir create s) := by
  intro r hr
  unfold createDirSymlink at hr
  cases hl : lstat s.fs dir with
  | ok n =>
    rw [hl] at hr
    by_cases hd : n.isSymlink
    · simp only [hd, Bool.not_true, Bool.false_eq_true, if_false] at hr
      cases hs : stat s.fs dir with
      | error e => rw [hs] at hr; simp at hr; subst hr; exact ⟨Grows.refl _, Nat.le_refl _⟩
      | ok n1 =>
        rw [hs] at hr
        by_cases hd1 : n1.isDir <;> simp [hd1] at hr <;> subst hr <;>
          exact ⟨Grows.refl _, Nat.le_refl _⟩
    · simp [hd] at hr; subst hr; exact ⟨Grows.refl _, Nat.le_refl _⟩
  | error e =>
    rw [hl] at hr
    by_cases he : e = .ENOENT
    · simp only [he, if_true] at hr
      subst he
      exact hc hl r hr
    · simp [he] at hr; subst hr; exact ⟨Grows.refl _, Nat.le_refl _⟩

theorem copyResourceFile_keeps (env : Env) (dst : Path) (s : St)
    (h : lstat s.fs dst = .error .ENOENT) : Keeps s (copyResourceFile env dst s) := by
  intro r hr
  unfold copyResourceFile at hr
  cases hg : env.gitignore with
  | none => rw [hg] at hr; simp at hr; subst hr; exact ⟨Grows.refl _, Nat.le_refl _⟩
  | some bytes =>
    rw [hg] at hr
    simp only at hr
    have hw := createWrite_grows env.umask h bytes
    cases hm : createWrite env.umask s.fs dst bytes with
    | mk res fs1 =>
      rw [hm] at hr hw
      cases res with
      | error e1 => simp at hr; subst hr; exact ⟨hw, Nat.le_refl _⟩
      | ok u => simp at hr; subst hr; exact ⟨hw, Nat.le_refl _⟩

theorem writeConfigFile_keeps (env : Env) (c : PrivateFolderConfig) (p : Path) (s : St)
    (h : lstat s.fs p = .error .ENOENT) : Keeps s (writeConfigFile env c p s) := by
  intro r hr
  unfold writeConfigFile at hr
  have hw := createWrite_grows env.umask h (env.encode c.FolderName)
  cases hm : createWrite env.umask s.fs p (env.encode c.FolderName) with
  | mk res fs1 =>
    rw [hm] at hr hw
    cases res with
    | error e1 => simp at hr; subst hr; exact ⟨hw, Nat.le_refl _⟩
    | ok u => simp at hr; subst hr; exact ⟨hw, Nat.le_refl _⟩

theorem reserveLoop_keeps (env : Env) :
    ∀ (fuel : Nat) (s : St), Keeps s (reserveLoop env fuel s) := by
  intro fuel
  induction fuel with
  | zero => intro s r hr; simp [reserveLoop] at hr
  | succ fuel ih =>
    intro s r hr
    unfold reserveLoop at hr
    cases hg : generateFolderName env s.genCalls with
    | none =>
      rw [hg] at hr; simp at hr; subst hr
      exact ⟨Grows.refl _, Nat.le_succ _⟩
    | some name =>
      rw [hg] at hr
      simp only at hr
      cases hs : stat s.fs (targetPath env name) with
      | ok n =>
        rw [hs] at hr
        obtain ⟨g, c⟩ := ih _ r hr
        exact ⟨g, Nat.le_trans (Nat.le_succ _) c⟩
      | error e =>
        rw [hs] at hr
        by_cases he : e = .ENOENT
        · simp only [he, if_true] at hr
          have hw := mkdirAll_grows env.umask s.fs (targetPath env name) 0o777
          cases hm : mkdirAll env.umask s.fs (targetPath env name) 0o777 with
          | mk res fs1 =>
            rw [hm] at hr hw
            cases res with
            | error e1 => simp at hr; subst hr; exact ⟨hw, Nat.le_succ _⟩
            | ok u => simp at hr; subst hr; exact ⟨hw, Nat.le_succ _⟩
        · simp [he] at hr; subst hr; exact ⟨Grows.refl _, Nat.le_succ _⟩

theorem initConfig_keeps (env : Env) (fuel : Nat) (cp p : Path) (s : St) :
    Keeps s (initConfig env fuel cp p s) := by
  have h : initConfig env fuel cp p s
      = (reserveLoop env fuel s).andThen
          (createFile cp (fun path s2 => writeConfigFile env s2.config path s2)) := by
    unfold initConfig Outcome.andThen
    rfl
  rw [h]
  apply Keeps.andThen (reserveLoop_keeps env fuel s)
  intro s1 _
  exact createFile_keeps _ _ _ (fun hl => writeConfigFile_keeps env _ _ _ hl)

theorem loadConfig_fs (env : Env) (cp : Path) (s : St) (r : Except Err Unit × St)
    (h : loadConfig env cp s = some r) : r.2.fs = s.fs ∧ r.2.genCalls = s.genCalls := by
  unfold loadConfig at h
  cases hr : readFile s.fs cp with
  | error e => rw [hr] at h; simp at h; subst h; exact ⟨rfl, rfl⟩
  | ok text =>
    rw [hr] at h
    simp only at h
    cases hd : env.decode text with
    | none => rw [hd] at h; simp at h; subst h; exact ⟨rfl, rfl⟩
    | some o =>
      rw [hd] at h
      cases o with
      | none => simp at h; subst h; exact ⟨rfl, rfl⟩
      | some name => simp at h; subst h; exact ⟨rfl, rfl⟩

theorem loadConfig_keeps (env : Env) (cp : Path) (s : St) : Keeps s (loadConfig env cp s) := by
  intro r hr
  obtain ⟨h1, h2⟩ := loadConfig_fs env cp s r hr
  rw [h1, h2]
  exact ⟨Grows.refl _, Nat.le_refl _⟩

theorem initSymlink_keeps (env : Env) (p : Path) (s : St) : Keeps s (initSymlink env p s) := by
  intro r hr
  unfold initSymlink at hr
  have hw := symlink_grows s.fs (targetPath env s.config.FolderName) p
  cases hm : symlink s.fs (targetPath env s.config.FolderName) p with
  | mk res fs1 =>
    rw [hm] at hr hw
    cases res with
    | error e1 => simp at hr; subst hr; exact ⟨hw, Nat.le_refl _⟩
    | ok u => simp at hr; subst hr; exact ⟨hw, Nat.le_refl _⟩

theorem initBeforeLink_keeps (env : Env) (fuel : Nat) (s : St) : Keeps s (initBeforeLink env fuel s) := by
  unfold initBeforeLink
  apply Keeps.andThen (createDir_keeps _ _ _ _)
  intro s1 _
  apply Keeps.andThen
    (createFile_keeps _ _ _ (fun hl => copyResourceFile_keeps env _ _ hl))
  intro s2 _
  apply Keeps.andThen (createFile_keeps _ _ _ (fun _ => initConfig_keeps env fuel _ _ _))
  intro s3 _
  exact loadConfig_keeps env _ s3

theorem Init_keeps (env : Env) (fuel : Nat) (s : St) : Keeps s (Init env fuel s) := by
  rw [Init_split]
  apply Keeps.andThen (initBeforeLink_keeps env fuel s)
  intro s1 _
  exact createDirSymlink_keeps _ _ _ (fun _ => initSymlink_keeps env _ _)

theorem createDir_gen {um : Nat} {dir : Path} {perm : Nat} {s : St} {r : Except Err Unit × St}
    (h : createDir um dir perm s = some r) : r.2.genCalls = s.genCalls ∧ r.2.config = s.config := by
  unfold createDir at h
  split at h
  · split at h
    · split at h <;> simp at h <;> subst h <;> exact ⟨rfl, rfl⟩
    · simp at h; subst h; exact ⟨rfl, rfl⟩
  · split at h <;> simp at h <;> subst h <;> exact ⟨rfl, rfl⟩

theorem copyResourceFile_gen {env : Env} {dst : Path} {s : St} {r : Except Err Unit × St}
    (h : copyResourceFile env dst s = some r) :
    r.2.genCalls = s.genCalls ∧ r.2.config = s.config := by
  unfold copyResourceFile at h
  split at h
  · simp at h; subst h; exact ⟨rfl, rfl⟩
  · split at h <;> simp at h <;> subst h <;> exact ⟨rfl, rfl⟩

theorem createFile_gen {path : Path} {create : Path → St → Outcome} {s : St}
    {r : Except Err Unit × St}
    (hc : ∀ r, create path s = some r → r.2.genCalls = s.genCalls ∧ r.2.config = s.config)
    (h : createFile path create s = some r) :
    r.2.genCalls = s.genCalls ∧ r.2.config = s.config := by
  unfold createFile at h
  split at h
  · split at h
    · exact hc r h
    · simp at h; subst h; exact ⟨rfl, rfl⟩
  · split at h <;> simp at h <;> subst h <;> exact ⟨rfl, rfl⟩

theorem initSymlink_gen {env : Env} {p : Path} {s : St} {r : Except Err Unit × St}
    (h : initSymlink env p s = some r) : r.2.genCalls = s.genCalls ∧ r.2.config = s.config := by
  unfold initSymlink at h
  split at h <;> simp at h <;> subst h <;> exact ⟨rfl, rfl⟩

theorem createDirSymlink_gen {dir : Path} {create : Path → St → Outcome} {s : St}
    {r : Except Err Unit × St}
    (hc : ∀ r, create dir s = some r → r.2.genCalls = s.genCalls ∧ r.2.config = s.config)
    (h : createDirSymlink dir create s = some r) :
    r.2.genCalls = s.genCalls ∧ r.2.config = s.config := by
  unfold createDirSymlink at h
  split at h
  · split at h
    · exact hc r h
    · simp at h; subst h; exact ⟨rfl, rfl⟩
  · split at h
    · simp at h; subst h; exact ⟨rfl, rfl⟩
    · split at h
      · simp at h; subst h; exact ⟨rfl, rfl⟩
      · split at h <;> simp at h <;> subst h <;> exact ⟨rfl, rfl⟩

theorem createDir_ok_stat {um : Nat} {dir : Path} {perm : Nat} {s s1 : St}
    (h : createDir um dir perm s = some (.ok (), s1)) : ∃ m, stat s1.fs dir = .ok (.dir m) := by
  unfold createDir at h
  cases hl : lstat s.fs dir with
  | ok n =>
    rw [hl] at h
    cases n with
    | dir m =>
      simp [Node.isDir] at h
      subst h
      exact ⟨m, stat_of_lstat_dir hl⟩
    | file a b => simp [Node.isDir] at h
    | symlink t => simp [Node.isDir] at h
  | error e =>
    rw [hl] at h
    by_cases he : e = .ENOENT
    · simp only [he, if_true] at h
      have hok := @mkdirAll_ok um s.fs dir perm
      cases hm : mkdirAll um s.fs dir perm with
      | mk res fs1 =>
        rw [hm] at h hok
        cases res with
        | error e1 => simp at h
        | ok u =>
          simp at h
          subst h
          exact hok rfl
    · simp [he] at h

theorem readFile_mono {fs fs2 : FS} (h : Grows fs fs2) {p : Path} {text : String}
    (hr : readFile fs p = .ok text) : readFile fs2 p = .ok text := by
  unfold readFile at hr ⊢
  cases hs : stat fs p with
  | error e => rw [hs] at hr; cases hr
  | ok n =>
    rw [stat_mono h hs]
    rw [hs] at hr
    exact hr

/-- A successful run of the loop accepted a name whose path `os.Stat` reported as not
existing in the filesystem the loop started from, and created its directory. -/
theorem reserveLoop_ok (env : Env) :
    ∀ (fuel : Nat) (s s1 : St), reserveLoop env fuel s = some (.ok (), s1) →
      ∃ c, s1.config = ⟨c⟩ ∧ stat s.fs (targetPath env c) = .error .ENOENT ∧
        s1.fs = (mkdirAll env.umask s.fs (targetPath env c) 0o777).2 ∧
        (mkdirAll env.umask s.fs (targetPath env c) 0o777).1 = .ok () ∧
        s.genCalls < s1.genCalls := by
  intro fuel
  induction fuel with
  | zero => intro s s1 h; simp [reserveLoop] at h
  | succ fuel ih =>
    intro s s1 h
    unfold reserveLoop at h
    cases hg : generateFolderName env s.genCalls with
    | none => rw [hg] at h; simp at h
    | some name =>
      rw [hg] at h
      simp only at h
      cases hs : stat s.fs (targetPath env name) with
      | ok n =>
        rw [hs] at h
        obtain ⟨c, h1, h2, h3, h4, h5⟩ := ih _ s1 h
        exact ⟨c, h1, h2, h3, h4, Nat.lt_of_succ_lt h5⟩
      | error e =>
        rw [hs] at h
        by_cases he : e = .ENOENT
        · subst he
          simp only [if_true] at h
          cases hm : mkdirAll env.umask s.fs (targetPath env name) 0o777 with
          | mk res fs1 =>
            rw [hm] at h
            cases res with
            | error e1 => simp at h
            | ok u =>
              simp at h
              subst h
              exact ⟨name, rfl, hs, by rw [hm], by rw [hm], Nat.lt_succ_self _⟩
        · simp [he] at h

/-- A successful config step that called the word source: the name it accepted was free
when the step began, its directory exists afterwards and `configPath` holds its encoding. -/
theorem configStep_ok {env : Env} {fuel : Nat} {s s3 : St} {m : Nat}
    (hbase : stat s.fs (baseDir env) = .ok (.dir m))
    (h : createFile (configPath env) (initConfig env fuel (configPath env)) s
      = some (.ok (), s3))
    (hgen : s.genCalls < s3.genCalls) :
    ∃ c, stat s.fs (targetPath env c) = .error .ENOENT ∧ s3.config = ⟨c⟩ ∧
      readFile s3.fs (configPath env) = .ok (env.encode c) ∧
      (∃ m1, stat s3.fs (targetPath env c) = .ok (.dir m1)) ∧ Grows s.fs s3.fs := by
  unfold createFile at h
  cases hl : lstat s.fs (configPath env) with
  | ok n =>
    rw [hl] at h
    by_cases hd : n.isDir
    · simp [hd] at h
    · simp [hd] at h
      subst h
      exact absurd hgen (Nat.lt_irrefl _)
  | error e =>
    rw [hl] at h
    by_cases he : e = .ENOENT
    · subst he
      simp only [if_true] at h
      unfold initConfig at h
      cases hloop : reserveLoop env fuel s with
      | none => rw [hloop] at h; cases h
      | some r =>
        obtain ⟨res, sL⟩ := r
        rw [hloop] at h
        cases res with
        | error e1 => simp at h
        | ok u =>
          simp only at h
          obtain ⟨c, hc, hfree, hfs, hmk, _⟩ := reserveLoop_ok env fuel s sL hloop
          have hg : Grows s.fs sL.fs := by rw [hfs]; exact mkdirAll_grows _ _ _ _
          have hnew : ∀ q n, sL.fs q = some n → s.fs q = some n ∨ n.isDir = true := by
            intro q n hq
            rw [hfs] at hq
            exact (mkdirAll_new _ _ _ _ q n hq).imp id (fun h => by rw [h]; rfl)
          obtain ⟨m1, hdir⟩ := mkdirAll_ok hmk
          rw [← hfs] at hdir
          rcases lstat_child_after (c := "config.toml") hbase hl hg hnew with hch | ⟨m2, hch⟩
          · have hch2 : lstat sL.fs (configPath env) = .error .ENOENT := hch
            simp only [createFile, hch2, if_true, writeConfigFile] at h
            have hwg := createWrite_grows env.umask hch2 (env.encode sL.config.FolderName)
            cases hw : createWrite env.umask sL.fs (configPath env)
                (env.encode sL.config.FolderName) with
            | mk r2 fs2 =>
              rw [hw] at h hwg
              cases r2 with
              | error e2 => simp at h
              | ok u2 =>
                simp at h
                subst h
                obtain ⟨hread, _⟩ := createWrite_read hch2 hw
                rw [hc] at hread
                exact ⟨c, hfree, hc, hread, ⟨m1, stat_mono hwg hdir⟩, hg.trans hwg⟩
          · have hch2 : lstat sL.fs (configPath env) = .ok (.dir m2) := hch
            simp [createFile, hch2, Node.isDir] at h
    · simp [he] at h

theorem loadConfig_ok {env : Env} {cp : Path} {s s1 : St} {c : String}
    (hread : readFile s.fs cp = .ok (env.encode c))
    (hrt : env.decode (env.encode c) = some (some c))
    (h : loadConfig env cp s = some (.ok (), s1)) : s1.config = ⟨c⟩ := by
  unfold loadConfig at h
  rw [hread] at h
  simp only [hrt] at h
  simp at h
  subst h
  rfl

/-- A successful `Init` that called the word source. -/
theorem Init_chose {env : Env} {fuel : Nat} {s s5 : St}
    (hrt : ∀ n, env.decode (env.encode n) = some (some n))
    (h : Init env fuel s = some (.ok (), s5)) (hgen : s.genCalls < s5.genCalls) :
    ∃ (c : String) (sB : St), Grows s.fs sB.fs ∧ Grows sB.fs s5.fs ∧
      stat sB.fs (targetPath env c) = .error .ENOENT ∧ s5.config = ⟨c⟩ ∧
      readFile s5.fs (configPath env) = .ok (env.encode c) ∧
      ∃ m1, stat s5.fs (targetPath env c) = .ok (.dir m1) := by
  unfold Init at h
  rcases andThen_some h with ⟨_, _, _, hc⟩ | ⟨s1, h1, h⟩
  · cases hc
  rcases andThen_some h with ⟨_, _, _, hc⟩ | ⟨s2, h2, h⟩
  · cases hc
  rcases andThen_some h with ⟨_, _, _, hc⟩ | ⟨s3, h3, h⟩
  · cases hc
  rcases andThen_some h with ⟨_, _, _, hc⟩ | ⟨s4, h4, h5⟩
  · cases hc
  obtain ⟨m, hb1⟩ := createDir_ok_stat h1
  have k1 := createDir_keeps _ _ _ _ _ h1
  have k2 := createFile_keeps _ _ _ (fun hl => copyResourceFile_keeps env _ _ hl) _ h2
  have k5 := createDirSymlink_keeps _ _ _ (fun _ => initSymlink_keeps env _ _) _ h5
  have g1 := createDir_gen h1
  have g2 := createFile_gen (fun r hr => copyResourceFile_gen hr) h2
  have g4 := loadConfig_fs env _ _ _ h4
  have g5 := createDirSymlink_gen (fun r hr => initSymlink_gen hr) h5
  simp only at k1 k2 k5 g1 g2 g4 g5
  have hb2 : stat s2.fs (baseDir env) = .ok (.dir m) := stat_mono k2.1 hb1
  have hlt : s2.genCalls < s3.genCalls := by
    rw [g2.1, g1.1, ← g4.2, ← g5.1]; exact hgen
  obtain ⟨c, hfree, hc3, hread3, ⟨m1, hdir3⟩, hg3⟩ := configStep_ok hb2 h3 hlt
  have hc4 := loadConfig_ok hread3 (hrt c) h4
  have hg35 : Grows s3.fs s5.fs := by rw [← g4.1]; exact k5.1
  refine ⟨c, s2, k1.1.trans k2.1, hg3.trans hg35, hfree, ?_, readFile_mono hg35 hread3,
    ⟨m1, stat_mono hg35 hdir3⟩⟩
  rw [g5.2]; exact hc4

theorem symlink_ok {fs fs2 : FS} {t p : Path} (h : symlink fs t p = (.ok (), fs2)) :
    lstat fs2 p = .ok (.symlink t) := by
  unfold symlink resolve at h
  cases hw : walk fs false (maxSymlinks + 1) p with
  | error e => rw [hw] at h; cases h
  | ok r =>
    obtain ⟨l, o⟩ := r
    rw [hw] at h
    cases o with
    | some x => cases h
    | none =>
      simp only [Prod.mk.injEq, true_and] at h
      subst h
      unfold lstat resolve
      rw [walk_insert_found (.symlink t) false (Or.inr rfl) _ _ hw]

/-- A link that `Init` creates points to the path of the loaded folder name. -/
theorem Init_link_created {env : Env} {fuel : Nat} {s s4 s5 : St}
    (hp : initBeforeLink env fuel s = some (.ok (), s4))
    (hl : lstat s4.fs (localPrivateFolderPath env) = .error .ENOENT)
    (h : Init env fuel s = some (.ok (), s5)) :
    lstat s5.fs (localPrivateFolderPath env)
      = .ok (.symlink (targetPath env s5.config.FolderName)) := by
  rw [Init_split, hp] at h
  simp only [Outcome.andThen, createDirSymlink, hl, if_true, initSymlink] at h
  cases hs : symlink s4.fs (targetPath env s4.config.FolderName) (localPrivateFolderPath env) with
  | mk res fs1 =>
    rw [hs] at h
    cases res with
    | error e => simp at h
    | ok u =>
      simp at h
      subst h
      exact symlink_ok hs

/-! ## When `MkdirAll` succeeds -/

theorem addDirs_nil (fs : FS) (mode : Nat) (l : Path) : addDirs fs mode l [] = fs := by
  funext q
  unfold addDirs
  have : ¬ (l <+: q ∧ q <+: l ++ [] ∧ q ≠ l) := by
    rintro ⟨h1, h2, h3⟩
    rw [List.append_nil] at h2
    exact h3 (List.IsPrefix.eq_of_length_le h2 h1.length_le)
  simp only [this, if_false]

theorem addDirs_snoc (fs : FS) (mode : Nat) (l : Path) (b : List String) (x : String) :
    addDirs fs mode l (b ++ [x])
      = (addDirs fs mode l b).insert (l ++ b ++ [x]) (.dir mode) := by
  funext q
  unfold addDirs FS.insert
  by_cases hq : q = l ++ b ++ [x]
  · subst hq
    have h1 : l <+: l ++ b ++ [x] := by rw [List.append_assoc]; exact List.prefix_append _ _
    have h2 : l ++ b ++ [x] <+: l ++ (b ++ [x]) := by rw [List.append_assoc]
    have h3 : l ++ b ++ [x] ≠ l := by
      intro h
      have := congrArg List.length h
      simp at this
    simp only [h1, h2, h3, ne_eq, not_false_eq_true, and_self, if_true]
  · simp only [hq, if_false]
    have key : (q <+: l ++ (b ++ [x])) ↔ (q <+: l ++ b) := by
      rw [← List.append_assoc, List.prefix_concat_iff]
      constructor
      · rintro (h | h)
        · exact absurd h hq
        · exact h
      · exact Or.inr
    simp only [key]

theorem Free.init {fs : FS} {l : Path} {b : List String} {x : String}
    (h : Free fs l (b ++ [x])) : Free fs l b := by
  intro q h1 h2 h3
  apply h q h1 _ h3
  rw [← List.append_assoc]
  exact h2.trans (List.prefix_append _ _)

theorem Free.last {fs : FS} {l : Path} {b : List String} {x : String}
    (h : Free fs l (b ++ [x])) : fs (l ++ b ++ [x]) = none := by
  apply h
  · rw [List.append_assoc]; exact List.prefix_append _ _
  · rw [List.append_assoc]
  · intro he
    have := congrArg List.length he
    simp at this

theorem walkFrom_snoc_absent {fs : FS} (c : String) (f : Bool)
    (r r2 : List String → Except Errno (Path × Option Node))
    (hr : ∀ q, ((∃ l, r q = .ok (l, none)) ∨ r q = .error .ENOENT) →
      r2 (q ++ [c]) = .error .ENOENT) :
    ∀ (q : List String) (cur : Path),
      ((∃ l, walkFrom fs false r cur q = .ok (l, none)) ∨
        walkFrom fs false r cur q = .error .ENOENT) →
      walkFrom fs f r2 cur (q ++ [c]) = .error .ENOENT := by
  intro q
  induction q with
  | nil =>
    intro cur h
    rcases h with ⟨l, h⟩ | h <;> simp [walkFrom] at h
  | cons d q ih =>
    intro cur h
    rw [List.cons_append]
    have hne : q ++ [c] ≠ [] := by simp
    unfold walkFrom at h ⊢
    cases hl : fs (cur ++ [d]) with
    | none => simp [hne]
    | some n =>
      rw [hl] at h
      cases n with
      | file a b =>
        by_cases hq : q = []
        · rcases h with ⟨l, h⟩ | h <;> simp [hq] at h
        · rcases h with ⟨l, h⟩ | h <;> simp [hq] at h
      | dir a =>
        by_cases hq : q = []
        · rcases h with ⟨l, h⟩ | h <;> simp [hq] at h
        · simp only [hq, if_false] at h
          simp only [hne, if_false]
          exact ih _ h
      | symlink t =>
        by_cases hq : q = []
        · rcases h with ⟨l, h⟩ | h <;> simp [hq] at h
        · simp only [hq, false_and, if_false] at h
          simp only [hne, false_and, if_false]
          rw [← List.append_assoc]
          exact hr _ h

theorem walk_snoc_absent {fs : FS} (c : String) (f : Bool) :
    ∀ (k : Nat) (q : List String),
      ((∃ l, walk fs false k q = .ok (l, none)) ∨ walk fs false k q = .error .ENOENT) →
      walk fs f k (q ++ [c]) = .error .ENOENT := by
  intro k
  induction k with
  | zero =>
    intro q h
    rcases h with ⟨l, h⟩ | h <;> simp [walk] at h
  | succ k ih => intro q h; exact walkFrom_snoc_absent c f _ _ ih q [] h

theorem lstat_enoent_iff {fs : FS} {p : Path} :
    lstat fs p = .error .ENOENT ↔
      ((∃ l, resolve fs false p = .ok (l, none)) ∨ resolve fs false p = .error .ENOENT) := by
  unfold lstat
  cases hw : resolve fs false p with
  | error e => simp
  | ok r =>
    obtain ⟨l, o⟩ := r
    cases o with
    | none => simp
    | some x => simp

theorem lstat_snoc_absent {fs : FS} {p : Path} (c : String)
    (h : lstat fs p = .error .ENOENT) : lstat fs (p ++ [c]) = .error .ENOENT := by
  rw [lstat_enoent_iff] at h ⊢
  right
  exact walk_snoc_absent c false _ p h

/-- Below a directory in which the first name of `b` is free, nothing is found along `b`. -/
theorem lstat_fresh {fs : FS} {a l : Path} {m : Nat}
    (ha : resolve fs true a = .ok (l, some (.dir m))) :
    ∀ (b : List String), b ≠ [] → Free fs l b → lstat fs (a ++ b) = .error .ENOENT := by
  intro b
  induction b using List.reverseRecOn with
  | nil => intro h; exact absurd rfl h
  | append_singleton b x ih =>
    intro _ hfree
    by_cases hb : b = []
    · subst hb
      have h0 := walk_snoc x _ _ _ _ ha
      have hx : fs (l ++ [x]) = none := by simpa using hfree.last
      rw [lstat_enoent_iff]
      left
      refine ⟨l ++ [x], ?_⟩
      simp only [List.nil_append] at h0 ⊢
      unfold resolve
      rw [h0, childAt, hx]
    · rw [← List.append_assoc]
      exact lstat_snoc_absent x (ih hb hfree.init)

theorem stat_of_resolve {fs : FS} {p l : Path} {n : Node}
    (h : resolve fs true p = .ok (l, some n)) : stat fs p = .ok n := by
  unfold stat
  rw [h]

theorem addDirs_last_free {fs : FS} (mode : Nat) {l : Path} {b : List String} {x : String}
    (h : Free fs l (b ++ [x])) : addDirs fs mode l b (l ++ b ++ [x]) = none := by
  unfold addDirs
  have hn : ¬ (l <+: l ++ b ++ [x] ∧ l ++ b ++ [x] <+: l ++ b ∧ l ++ b ++ [x] ≠ l) := by
    rintro ⟨_, h2, _⟩
    have := h2.length_le
    simp at this
  simp only [hn, if_false]
  exact h.last

/-- When the part `a` of a path resolves to a directory and nothing exists below it
along `b`, `MkdirAll` on `a ++ b` succeeds and adds exactly the directories along `b`. -/
theorem mkdirAllRev_fresh (um perm : Nat) {fs : FS} {a l : Path} {m : Nat}
    (ha : resolve fs true a = .ok (l, some (.dir m))) :
    ∀ (b : List String), Free fs l b →
      mkdirAllRev um perm (a ++ b).reverse fs
        = (.ok (), addDirs fs (applyUmask um perm) l b) ∧
      ∃ m2, resolve (addDirs fs (applyUmask um perm) l b) true (a ++ b)
        = .ok (l ++ b, some (.dir m2)) := by
  intro b
  induction b using List.reverseRecOn with
  | nil =>
    intro _
    rw [addDirs_nil]
    simp only [List.append_nil]
    refine ⟨?_, m, ha⟩
    cases har : a.reverse with
    | nil => rfl
    | cons c rp =>
      have hp : (c :: rp).reverse = a := by rw [← har, List.reverse_reverse]
      unfold mkdirAllRev
      simp only [hp, stat_of_resolve ha, Node.isDir, if_true]
  | append_singleton b x ih =>
    intro hfree
    obtain ⟨h1, m2, h2⟩ := ih hfree.init
    have hrev : (a ++ (b ++ [x])).reverse = x :: (a ++ b).reverse := by
      simp [List.reverse_append]
    have hp : (x :: (a ++ b).reverse).reverse = a ++ b ++ [x] := by simp
    have hstat : stat fs (a ++ b ++ [x]) = .error .ENOENT := by
      rw [List.append_assoc]
      exact stat_eq_of_lstat_error (lstat_fresh ha (b ++ [x]) (by simp) hfree)
    have hnone := addDirs_last_free (applyUmask um perm) hfree
    have hres : resolve (addDirs fs (applyUmask um perm) l b) false (a ++ b ++ [x])
        = .ok (l ++ b ++ [x], none) := by
      have := walk_snoc x _ _ _ _ h2
      unfold resolve
      rw [this, childAt, hnone]
    have hmk : mkdir um (addDirs fs (applyUmask um perm) l b) (a ++ b ++ [x]) perm
        = (.ok (), addDirs fs (applyUmask um perm) l (b ++ [x])) := by
      unfold mkdir
      rw [hres, addDirs_snoc]
    refine ⟨?_, applyUmask um perm, ?_⟩
    · rw [hrev]
      unfold mkdirAllRev
      simp only [hp, hstat, h1, hmk]
    · rw [addDirs_snoc]
      have hg : Grows (addDirs fs (applyUmask um perm) l b)
          ((addDirs fs (applyUmask um perm) l b).insert (l ++ b ++ [x])
            (.dir (applyUmask um perm))) := Grows.insert _ hnone
      have h3 := walk_mono hg true _ _ _ _ h2
      have h4 := walk_snoc x _ _ _ _ h3
      have hins : ((addDirs fs (applyUmask um perm) l b).insert (l ++ b ++ [x])
          (.dir (applyUmask um perm))) (l ++ b ++ [x]) = some (.dir (applyUmask um perm)) := by
        simp [FS.insert]
      rw [childAt, hins] at h4
      unfold resolve
      rw [← List.append_assoc, ← List.append_assoc]
      rw [walk_follow _ _ (by rw [h4]; trivial)]
      exact h4

theorem mkdirAll_fresh (um perm : Nat) {fs : FS} {a l : Path} {m : Nat} (b : List String)
    (ha : resolve fs true a = .ok (l, some (.dir m))) (hfree : Free fs l b) :
    mkdirAll um fs (a ++ b) perm = (.ok (), addDirs fs (applyUmask um perm) l b) :=
  (mkdirAllRev_fresh um perm ha b hfree).1

/-- A file can be created where the parent resolves to a directory and nothing exists. -/
theorem createWrite_ok (um : Nat) {fs : FS} {p : Path} {c : String} {m : Nat}
    (content : String) (hp : stat fs p = .ok (.dir m))
    (habs : lstat fs (p ++ [c]) = .error .ENOENT) :
    (createWrite um fs (p ++ [c]) content).1 = .ok () := by
  have hr := resolve_follow_of_lstat_error habs
  unfold stat at hp
  cases hw : resolve fs true p with
  | error e => rw [hw] at hp; cases hp
  | ok r =>
    obtain ⟨l, o⟩ := r
    rw [hw] at hp
    cases o with
    | none => cases hp
    | some x =>
      simp only [Except.ok.injEq] at hp
      subst hp
      have h0 : resolve fs false (p ++ [c]) = childAt fs l c := walk_snoc c _ _ _ _ hw
      unfold lstat at habs
      rw [h0, childAt] at habs
      unfold createWrite
      rw [hr, h0, childAt]
      cases hl : fs (l ++ [c]) with
      | none => rfl
      | some n => rw [hl] at habs; cases habs

theorem Free.of_inits {fs : FS} {l : Path} {b : List String}
    (h : ∀ q ∈ (l ++ b).inits, l <+: q → q ≠ l → fs q = none) : Free fs l b :=
  fun q h1 h2 h3 => h q ((List.mem_inits _ _).2 h2) h1 h3

theorem readFile_not_ok {fs : FS} {p : Path}
    (h : lstat fs p = .error .ENOENT ∨ ∃ m, lstat fs p = .ok (.dir m)) :
    ∀ text, readFile fs p ≠ .ok text := by
  intro text hr
  unfold readFile at hr
  rcases h with h | ⟨m, h⟩
  · rw [stat_eq_of_lstat_error h] at hr; cases hr
  · rw [stat_of_lstat_dir h] at hr; cases hr

/-! ## Stability of the config and re-runs of `Init` -/

theorem lstat_of_stat {fs : FS} {p : Path} {n : Node} (h : stat fs p = .ok n) :
    ∃ x, lstat fs p = .ok x ∧ (x.isDir = true → n.isDir = true) := by
  cases hl : lstat fs p with
  | error e => rw [stat_eq_of_lstat_error hl] at h; cases h
  | ok x =>
    refine ⟨x, rfl, ?_⟩
    intro hd
    cases x with
    | dir m =>
      rw [stat_of_lstat_dir hl] at h
      cases h
      rfl
    | file a b => cases hd
    | symlink t => cases hd

/-- Stability of the config: when an entry exists at `configPath`, no run of `Init`,
successful or not, calls the word source or changes an entry; what `configPath`
holds stays what it was. -/
theorem Init_config_stable (env : Env) (fuel : Nat) (s : St) (n : Node)
    (r : Except Err Unit × St)
    (hcfg : lstat s.fs (configPath env) = .ok n) (h : Init env fuel s = some r) :
    r.2.genCalls = s.genCalls ∧ Grows s.fs r.2.fs ∧
    (∀ text, readFile s.fs (configPath env) = .ok text →
      readFile r.2.fs (configPath env) = .ok text) := by
  have hk := Init_keeps env fuel s r h
  refine ⟨?_, hk.1, fun text ht => readFile_mono hk.1 ht⟩
  unfold Init at h
  rcases andThen_some h with ⟨e, s1, h1, hr⟩ | ⟨s1, h1, h⟩
  · rw [hr]; exact (createDir_gen h1).1
  have g1 := createDir_gen h1
  have k1 := createDir_keeps _ _ _ _ _ h1
  rcases andThen_some h with ⟨e, s2, h2, hr⟩ | ⟨s2, h2, h⟩
  · rw [hr]
    have g2 := createFile_gen (fun r hr => copyResourceFile_gen hr) h2
    exact g2.1.trans g1.1
  have g2 := createFile_gen (fun r hr => copyResourceFile_gen hr) h2
  have k2 := createFile_keeps _ _ _ (fun hl => copyResourceFile_keeps env _ _ hl) _ h2
  have hcfg2 : lstat s2.fs (configPath env) = .ok n :=
    lstat_mono (k1.1.trans k2.1) hcfg
  have g3 : ∀ r3, createFile (configPath env) (initConfig env fuel (configPath env)) s2
      = some r3 → r3.2.genCalls = s2.genCalls := by
    intro r3 h3
    unfold createFile at h3
    rw [hcfg2] at h3
    by_cases hd : n.isDir <;> simp [hd] at h3 <;> subst h3 <;> rfl
  rcases andThen_some h with ⟨e, s3, h3, hr⟩ | ⟨s3, h3, h⟩
  · rw [hr]
    exact (g3 _ h3).trans (g2.1.trans g1.1)
  have e3 := (g3 _ h3).trans (g2.1.trans g1.1)
  rcases andThen_some h with ⟨e, s4, h4, hr⟩ | ⟨s4, h4, h5⟩
  · rw [hr]
    exact (loadConfig_fs env _ _ _ h4).2.trans e3
  have e4 := (loadConfig_fs env _ _ _ h4).2.trans e3
  exact (createDirSymlink_gen (fun r hr => initSymlink_gen hr) h5).1.trans e4

theorem lstat_root (fs : FS) : lstat fs [] = .ok rootNode := rfl

theorem mkdirAll_ok_lstat {um : Nat} {fs : FS} {p : Path} {perm : Nat}
    (hl : lstat fs p = .error .ENOENT) (h : (mkdirAll um fs p perm).1 = .ok ()) :
    ∃ m, lstat (mkdirAll um fs p perm).2 p = .ok (.dir m) := by
  unfold mkdirAll at h ⊢
  cases hp : p.reverse with
  | nil =>
    have : p = [] := by simpa using hp
    subst this
    rw [lstat_root] at hl
    cases hl
  | cons c rp =>
    have hpe : (c :: rp).reverse = p := by rw [← hp, List.reverse_reverse]
    rw [hp] at h
    unfold mkdirAllRev at h ⊢
    simp only [hpe, stat_eq_of_lstat_error hl] at h ⊢
    cases hm : mkdirAllRev um perm rp fs with
    | mk res fs1 =>
      rw [hm] at h
      cases res with
      | error e1 => simp at h
      | ok u =>
        simp only at h ⊢
        cases hk : mkdir um fs1 p perm with
        | mk res2 fs2 =>
          rw [hk] at h
          cases res2 with
          | ok u2 => exact ⟨_, mkdir_ok hk⟩
          | error e2 =>
            simp only at h ⊢
            cases hl2 : lstat fs2 p with
            | error e3 => rw [hl2] at h; simp at h
            | ok n =>
              rw [hl2] at h
              cases n with
              | dir m => exact ⟨m, by simp [Node.isDir, hl2]⟩
              | file a b => simp [Node.isDir] at h
              | symlink t => simp [Node.isDir] at h

theorem createDir_ok_lstat {um : Nat} {dir : Path} {perm : Nat} {s s1 : St}
    (h : createDir um dir perm s = some (.ok (), s1)) : ∃ m, lstat s1.fs dir = .ok (.dir m) := by
  unfold createDir at h
  cases hl : lstat s.fs dir with
  | ok n =>
    rw [hl] at h
    cases n with
    | dir m =>
      simp [Node.isDir] at h
      subst h
      exact ⟨m, hl⟩
    | file a b => simp [Node.isDir] at h
    | symlink t => simp [Node.isDir] at h
  | error e =>
    rw [hl] at h
    by_cases he : e = .ENOENT
    · subst he
      simp only [if_true] at h
      have hok := @mkdirAll_ok_lstat um s.fs dir perm hl
      cases hm : mkdirAll um s.fs dir perm with
      | mk res fs1 =>
        rw [hm] at h hok
        cases res with
        | error e1 => simp at h
        | ok u =>
          simp at h
          subst h
          exact hok rfl
    · simp [he] at h

theorem createWrite_lstat {um : Nat} {fs fs2 : FS} {p : Path} {content : String}
    (h : lstat fs p = .error .ENOENT) (hc : createWrite um fs p content = (.ok (), fs2)) :
    lstat fs2 p = .ok (.file (applyUmask um 0o666) content) := by
  have hr := resolve_follow_of_lstat_error h
  unfold createWrite at hc
  rw [hr] at hc
  unfold lstat at h
  cases hw : resolve fs false p with
  | error e => rw [hw] at hc; cases hc
  | ok r =>
    obtain ⟨l, o⟩ := r
    rw [hw] at hc h
    cases o with
    | some x => cases h
    | none =>
      simp only [Prod.mk.injEq, true_and] at hc
      subst hc
      unfold resolve at hw
      unfold lstat resolve
      rw [walk_insert_found (.file (applyUmask um 0o666) content) false (Or.inl rfl) _ _ hw]

theorem gitignoreStep_ok_lstat {env : Env} {s s1 : St}
    (h : createFile (gitignorePath env) (fun _path => copyResourceFile env (gitignorePath env)) s
      = some (.ok (), s1)) :
    ∃ x, lstat s1.fs (gitignorePath env) = .ok x ∧ x.isDir = false := by
  unfold createFile at h
  cases hl : lstat s.fs (gitignorePath env) with
  | ok n =>
    rw [hl] at h
    by_cases hd : n.isDir
    · simp [hd] at h
    · simp [hd] at h
      subst h
      exact ⟨n, hl, by simpa using hd⟩
  | error e =>
    rw [hl] at h
    by_cases he : e = .ENOENT
    · subst he
      simp only [if_true] at h
      unfold copyResourceFile at h
      cases hg : env.gitignore with
      | none => rw [hg] at h; simp at h
      | some bytes =>
        rw [hg] at h
        simp only at h
        cases hw : createWrite env.umask s.fs (gitignorePath env) bytes with
        | mk res fs1 =>
          rw [hw] at h
          cases res with
          | error e1 => simp at h
          | ok u =>
            simp at h
            subst h
            exact ⟨_, createWrite_lstat hl hw, rfl⟩
    · simp [he] at h

theorem loadConfig_ok_read {env : Env} {cp : Path} {s s1 : St}
    (h : loadConfig env cp s = some (.ok (), s1)) :
    ∃ text o, readFile s.fs cp = .ok text ∧ env.decode text = some o := by
  unfold loadConfig at h
  cases hr : readFile s.fs cp with
  | error e => rw [hr] at h; simp at h
  | ok text =>
    rw [hr] at h
    simp only at h
    cases hd : env.decode text with
    | none => rw [hd] at h; simp at h
    | some o => exact ⟨text, o, rfl, hd⟩

theorem lstat_of_readFile {fs : FS} {p : Path} {text : String}
    (h : readFile fs p = .ok text) : ∃ x, lstat fs p = .ok x ∧ x.isDir = false := by
  unfold readFile at h
  cases hs : stat fs p with
  | error e => rw [hs] at h; cases h
  | ok n =>
    rw [hs] at h
    obtain ⟨x, hx, hd⟩ := lstat_of_stat hs
    refine ⟨x, hx, ?_⟩
    cases n with
    | file a b =>
      cases hxd : x.isDir with
      | false => rfl
      | true => exact absurd (hd hxd) (by simp [Node.isDir])
    | dir a => cases h
    | symlink t => cases h

theorem linkStep_ok_lstat {env : Env} {s s1 : St}
    (h : createDirSymlink (localPrivateFolderPath env) (initSymlink env) s = some (.ok (), s1)) :
    ∃ x, lstat s1.fs (localPrivateFolderPath env) = .ok x ∧ x.isSymlink = true := by
  unfold createDirSymlink at h
  cases hl : lstat s.fs (localPrivateFolderPath env) with
  | ok n =>
    rw [hl] at h
    by_cases hd : n.isSymlink
    · simp only [hd, Bool.not_true, Bool.false_eq_true, if_false] at h
      cases hs : stat s.fs (localPrivateFolderPath env) with
      | error e => rw [hs] at h; simp at h
      | ok n1 =>
        rw [hs] at h
        by_cases hd1 : n1.isDir
        · simp [hd1] at h
          subst h
          exact ⟨n, hl, hd⟩
        · simp [hd1] at h
    · simp [hd] at h
  | error e =>
    rw [hl] at h
    by_cases he : e = .ENOENT
    · subst he
      simp only [if_true, initSymlink] at h
      cases hs : symlink s.fs (targetPath env s.config.FolderName) (localPrivateFolderPath env) with
      | mk res fs1 =>
        rw [hs] at h
        cases res with
        | error e1 => simp at h
        | ok u =>
          simp at h
          subst h
          exact ⟨_, symlink_ok hs, rfl⟩
    · simp [he] at h

/-- Re-running `Init`: on a state that a successful `Init` produced and in
which the link resolves to a directory, `Init` (started with any value of the local
`config` and any bound on the loop) succeeds again and changes neither the
filesystem nor the count of calls to the word source. -/
theorem Init_again_of_link_ok (env : Env) (f1 f2 : Nat) (s s5 : St) (c0 : PrivateFolderConfig)
    (m : Nat) (h : Init env f1 s = some (.ok (), s5))
    (hlink : stat s5.fs (localPrivateFolderPath env) = .ok (.dir m)) :
    ∃ c1, Init env f2 { s5 with config := c0 } = some (.ok (), { s5 with config := c1 }) := by
  unfold Init at h
  rcases andThen_some h with ⟨_, _, _, hc⟩ | ⟨s1, h1, h⟩
  · cases hc
  rcases andThen_some h with ⟨_, _, _, hc⟩ | ⟨s2, h2, h⟩
  · cases hc
  rcases andThen_some h with ⟨_, _, _, hc⟩ | ⟨s3, h3, h⟩
  · cases hc
  rcases andThen_some h with ⟨_, _, _, hc⟩ | ⟨s4, h4, h5⟩
  · cases hc
  have k2 := (createFile_keeps _ _ _ (fun hl => copyResourceFile_keeps env _ _ hl) _ h2).1
  have k3 := (createFile_keeps _ _ _ (fun _ => initConfig_keeps env f1 _ _ _) _ h3).1
  have e4 := (loadConfig_fs env _ _ _ h4).1
  have k5 := (createDirSymlink_keeps _ _ _ (fun _ => initSymlink_keeps env _ _) _ h5).1
  simp only at k2 k3 e4 k5
  have k35 : Grows s3.fs s5.fs := by rw [← e4]; exact k5
  obtain ⟨mb, hb⟩ := createDir_ok_lstat h1
  have hb5 := lstat_mono ((k2.trans k3).trans k35) hb
  obtain ⟨xg, hg, hgd⟩ := gitignoreStep_ok_lstat h2
  have hg5 := lstat_mono (k3.trans k35) hg
  obtain ⟨text, o, hread, hdec⟩ := loadConfig_ok_read h4
  obtain ⟨xc, hc, hcd⟩ := lstat_of_readFile hread
  have hc5 := lstat_mono k35 hc
  have hread5 := readFile_mono k35 hread
  obtain ⟨xl, hl, hls⟩ := linkStep_ok_lstat h5
  have a1 : createDir env.umask (baseDir env) 0o755 { s5 with config := c0 }
      = some (.ok (), { s5 with config := c0 }) := by
    simp [createDir, hb5, Node.isDir]
  have a2 : createFile (gitignorePath env)
      (fun _path => copyResourceFile env (gitignorePath env)) { s5 with config := c0 }
      = some (.ok (), { s5 with config := c0 }) := by
    simp [createFile, hg5, hgd]
  have a3 : createFile (configPath env) (initConfig env f2 (configPath env))
      { s5 with config := c0 } = some (.ok (), { s5 with config := c0 }) := by
    simp [createFile, hc5, hcd]
  have a5 : ∀ c1, createDirSymlink (localPrivateFolderPath env) (initSymlink env)
      { s5 with config := c1 } = some (.ok (), { s5 with config := c1 }) := by
    intro c1
    simp [createDirSymlink, hl, hls, hlink, Node.isDir]
  cases o with
  | none =>
    refine ⟨c0, ?_⟩
    have a4 : loadConfig env (configPath env) { s5 with config := c0 }
        = some (.ok (), { s5 with config := c0 }) := by
      simp [loadConfig, hread5, hdec]
    simp only [Init, a1, a2, a3, a4, a5, Outcome.andThen]
  | some name =>
    refine ⟨⟨name⟩, ?_⟩
    have a4 : loadConfig env (configPath env) { s5 with config := c0 }
        = some (.ok (), { s5 with config := ⟨name⟩ }) := by
      simp [loadConfig, hread5, hdec]
    simp only [Init, a1, a2, a3, a4, a5, Outcome.andThen]

/-! ## `Init` on a repository whose config exists and whose external directory does not -/

/-- C1, evaluated at the failing input. On `fsConfigOnly` (config present, link and
external directory absent) `Init` succeeds; run again on the resulting state it fails
with the `ENOENT` of `os.Stat` on the link it has just created. -/
theorem Init_twice_fails :
    (runInit env0 1 fsConfigOnly 0).map (fun r => r.1) = some (.ok ()) ∧
    ((runInit env0 1 fsConfigOnly 0).bind fun r =>
      (runInit env0 1 r.2.fs r.2.genCalls).map (fun r2 => r2.1))
      = some (.error (.sys .ENOENT)) := by
  decide

/-- C2, evaluated at the failing input. On `fsConfigOnly` `Init` succeeds and leaves
`.private/files` a symbolic link to `/home/cfg/private-folder/a-b-c-d`, which does
not exist: `os.Stat` on the link reports `ENOENT`. -/
theorem Init_success_dangling_link :
    (runInit env0 1 fsConfigOnly 0).map
      (fun r => (r.1, lstat r.2.fs (localPrivateFolderPath env0),
        stat r.2.fs (localPrivateFolderPath env0)))
      = some (.ok (), .ok (.symlink ["home", "cfg", "private-folder", "a-b-c-d"]),
          .error .ENOENT) := by
  decide

/-- C3, evaluated at the failing input. On `fsConfigOnly` the config holds
`folderName = a-b-c-d` and the external directory of that name is gone; `Init`
neither fails nor recreates the directory: it succeeds, the word source is not
called, the config is unchanged and the directory is still absent. -/
theorem Init_config_present_target_absent :
    (readFile fsConfigOnly (configPath env0)).toOption.bind env0.decode
      = some (some "a-b-c-d") ∧
    stat fsConfigOnly (targetPath env0 "a-b-c-d") = .error .ENOENT ∧
    (runInit env0 1 fsConfigOnly 0).map
      (fun r => (r.1, r.2.genCalls, readFile r.2.fs (configPath env0),
        stat r.2.fs (targetPath env0 "a-b-c-d")))
      = some (.ok (), 0, .ok "folderName = 'a-b-c-d'\n", .error .ENOENT) := by
  decide

/-! ## The reservation loop -/

/-- C4, as stated, fails: with `configPath` absent and a first candidate whose path
`os.Stat` reports as not existing, `MkdirAll` can fail (here `private-folder` is a
dangling symbolic link); `Init` then returns that error, creates no directory and
persists nothing. -/
theorem Init_reserve_mkdir_fails :
    lstat fsDanglingStore (configPath env0) = .error .ENOENT ∧
    generateFolderName env0 0 = some "amber-birch-cedar-delta" ∧
    stat fsDanglingStore (targetPath env0 "amber-birch-cedar-delta") = .error .ENOENT ∧
    (Init env0 5 (St.start fsDanglingStore)).map
      (fun r => (r.1, r.2.genCalls, lstat r.2.fs (configPath env0),
        stat r.2.fs (targetPath env0 "amber-birch-cedar-delta")))
      = some (.error (.sys .EEXIST), 1, .error .ENOENT, .error .ENOENT) := by
  decide

/-- C4, amended. At the config step of `Init` (`baseDir` resolves to a directory and
`Lstat` reports nothing at `configPath`): when the first `i` candidates are generated
and `os.Stat` finds each of their paths, and candidate number `i`, `c`, is generated
and `os.Stat` reports its path as not existing, then with any bound above `i` the step
returns, after exactly `i + 1` calls of the word source and with nothing done for the
earlier candidates, what follows: `MkdirAll` is run on the path of `c`; its error is
returned; after its success `config.FolderName` is `c` and `createFile` is called for
`configPath` with the writer of the config, where it finds nothing or a directory.
Whenever `MkdirAll` succeeds and leaves `configPath` free, the step succeeds:
`configPath` holds the encoding of `c`, the path of `c` and its ancestors resolve to
directories, no earlier entry has changed and every entry added is a directory of mode
`0777 & ~umask` or the config file of mode `0666 & ~umask`. `MkdirAll` does succeed,
adding exactly the missing directories, when a part of the path of `c` resolves to a
directory and nothing exists below it along the rest. Whenever the step returns an
error, no config can be read at `configPath`. -/
theorem initConfig_reserves (env : Env) (s : St) (i : Nat) (c : String) (m : Nat) (fuel : Nat)
    (hbase : stat s.fs (baseDir env) = .ok (.dir m))
    (habs : lstat s.fs (configPath env) = .error .ENOENT)
    (hskip : ∀ k, k < i → ∃ ck n, generateFolderName env (s.genCalls + k) = some ck ∧
      stat s.fs (targetPath env ck) = .ok n)
    (hgen : generateFolderName env (s.genCalls + i) = some c)
    (hfree : stat s.fs (targetPath env c) = .error .ENOENT)
    (hfuel : i < fuel) :
    createFile (configPath env) (initConfig env fuel (configPath env)) s =
      (match mkdirAll env.umask s.fs (targetPath env c) 0o777 with
       | (.error e, fs1) =>
         some (.error (.sys e),
           { fs := fs1, genCalls := s.genCalls + i + 1, config := s.config })
       | (.ok (), fs1) =>
         createFile (configPath env) (fun path s2 => writeConfigFile env s2.config path s2)
           { fs := fs1, genCalls := s.genCalls + i + 1, config := ⟨c⟩ }) ∧
    (lstat (mkdirAll env.umask s.fs (targetPath env c) 0o777).2 (configPath env)
        = .error .ENOENT ∨
      ∃ m1, lstat (mkdirAll env.umask s.fs (targetPath env c) 0o777).2 (configPath env)
        = .ok (.dir m1)) ∧
    ((mkdirAll env.umask s.fs (targetPath env c) 0o777).1 = .ok () →
      lstat (mkdirAll env.umask s.fs (targetPath env c) 0o777).2 (configPath env)
        = .error .ENOENT →
      createFile (configPath env) (initConfig env fuel (configPath env)) s
        = some (.ok (),
            { fs := (createWrite env.umask (mkdirAll env.umask s.fs (targetPath env c) 0o777).2
                (configPath env) (env.encode c)).2,
              genCalls := s.genCalls + i + 1, config := ⟨c⟩ }) ∧
      readFile (createWrite env.umask (mkdirAll env.umask s.fs (targetPath env c) 0o777).2
        (configPath env) (env.encode c)).2 (configPath env) = .ok (env.encode c) ∧
      (∀ a b, a ++ b = targetPath env c →
        ∃ m1, stat (createWrite env.umask (mkdirAll env.umask s.fs (targetPath env c) 0o777).2
          (configPath env) (env.encode c)).2 a = .ok (.dir m1)) ∧
      Grows s.fs (createWrite env.umask (mkdirAll env.umask s.fs (targetPath env c) 0o777).2
        (configPath env) (env.encode c)).2 ∧
      (∀ q n, (createWrite env.umask (mkdirAll env.umask s.fs (targetPath env c) 0o777).2
          (configPath env) (env.encode c)).2 q = some n →
        s.fs q = some n ∨ n = .dir (applyUmask env.umask 0o777) ∨
          n = .file (applyUmask env.umask 0o666) (env.encode c))) ∧
    (∀ (a : Path) (b : List String) (l : Path) (m1 : Nat), targetPath env c = a ++ b →
      resolve s.fs true a = .ok (l, some (.dir m1)) → Free s.fs l b →
      mkdirAll env.umask s.fs (targetPath env c) 0o777
        = (.ok (), addDirs s.fs (applyUmask env.umask 0o777) l b)) ∧
    (∀ e s1, createFile (configPath env) (initConfig env fuel (configPath env)) s
        = some (.error e, s1) →
      ∀ text, readFile s1.fs (configPath env) ≠ .ok text) := by
  have hloop := reserveLoop_exact env c i s fuel hskip hgen hfree hfuel
  have hg := mkdirAll_grows env.umask s.fs (targetPath env c) 0o777
  have hnew := mkdirAll_new env.umask s.fs (targetPath env c) 0o777
  have hok := @mkdirAll_ok env.umask s.fs (targetPath env c) 0o777
  have hstep : createFile (configPath env) (initConfig env fuel (configPath env)) s
      = initConfig env fuel (configPath env) (configPath env) s := by
    simp [createFile, habs]
  have hch := lstat_child_after (c := "config.toml") hbase habs hg
    (fun q n hq => (hnew q n hq).imp id (fun h => by rw [h]; rfl))
  have hch2 : lstat (mkdirAll env.umask s.fs (targetPath env c) 0o777).2 (configPath env)
      = .error .ENOENT ∨ ∃ m1, lstat (mkdirAll env.umask s.fs (targetPath env c) 0o777).2
        (configPath env) = .ok (.dir m1) := hch
  have hwok : lstat (mkdirAll env.umask s.fs (targetPath env c) 0o777).2 (configPath env)
      = .error .ENOENT →
      (createWrite env.umask (mkdirAll env.umask s.fs (targetPath env c) 0o777).2
        (configPath env) (env.encode c)).1 = .ok () :=
    fun h => createWrite_ok env.umask (c := "config.toml") (env.encode c) (stat_mono hg hbase) h
  have hfresh : ∀ (a : Path) (b : List String) (l : Path) (m1 : Nat),
      targetPath env c = a ++ b → resolve s.fs true a = .ok (l, some (.dir m1)) →
      Free s.fs l b →
      mkdirAll env.umask s.fs (targetPath env c) 0o777
        = (.ok (), addDirs s.fs (applyUmask env.umask 0o777) l b) := by
    intro a b l m1 hab ha hfr
    rw [hab]
    exact mkdirAll_fresh env.umask 0o777 b ha hfr
  refine ⟨?_, hch2, ?_, hfresh, ?_⟩
  · rw [hstep]
    unfold initConfig
    rw [hloop]
    cases hm : mkdirAll env.umask s.fs (targetPath env c) 0o777 with
    | mk r1 fs1 =>
      cases r1 with
      | error e => rfl
      | ok u => rfl
  · rw [hstep]
    unfold initConfig
    rw [hloop]
    cases hm : mkdirAll env.umask s.fs (targetPath env c) 0o777 with
    | mk r1 fs1 =>
      rw [hm] at hg hnew hok hwok
      simp only at hwok hg hnew hok
      cases r1 with
      | error e => intro hc; simp at hc
      | ok u =>
        intro _ hl
        simp only at hl ⊢
        have hw1 := hwok hl
        have hwg := createWrite_grows env.umask hl (env.encode c)
        cases hw : createWrite env.umask fs1 (configPath env) (env.encode c) with
        | mk r2 fs2 =>
          rw [hw] at hw1 hwg
          cases r2 with
          | error e => cases hw1
          | ok u2 =>
            obtain ⟨hread, hnew2⟩ := createWrite_read hl hw
            obtain ⟨m2, hm2⟩ := hok rfl
            refine ⟨?_, hread, ?_, hg.trans hwg, ?_⟩
            · simp only [createFile, hl, if_true, writeConfigFile, hw]
            · intro a b hab
              rw [← hab] at hm2
              obtain ⟨m3, hm3⟩ := stat_ancestor a b m2 hm2
              exact ⟨m3, stat_mono hwg hm3⟩
            · intro q n hq
              rcases hnew2 q n hq with h | h
              · rcases hnew q n h with h3 | h3
                · exact Or.inl h3
                · exact Or.inr (Or.inl h3)
              · exact Or.inr (Or.inr h)
  · rw [hstep]
    unfold initConfig
    rw [hloop]
    cases hm : mkdirAll env.umask s.fs (targetPath env c) 0o777 with
    | mk r1 fs1 =>
      rw [hm] at hch2 hwok
      simp only at hch2 hwok
      cases r1 with
      | error e =>
        intro e1 s1 he text
        simp only [Option.some.injEq, Prod.mk.injEq] at he
        rw [← he.2]
        exact readFile_not_ok hch2 text
      | ok u =>
        simp only
        intro e1 s1 he text
        rcases hch2 with hl | ⟨m1, hl⟩
        · have hw1 := hwok hl
          cases hw : createWrite env.umask fs1 (configPath env) (env.encode c) with
          | mk r2 fs2 =>
            rw [hw] at hw1
            cases r2 with
            | error e => cases hw1
            | ok u2 =>
              simp only [createFile, hl, if_true, writeConfigFile, hw] at he
              simp at he
        · simp only [createFile, hl, Node.isDir, if_true, Option.some.injEq,
            Prod.mk.injEq] at he
          rw [← he.2]
          exact readFile_not_ok (Or.inr ⟨m1, hl⟩) text

/-- Witness for `initConfig_reserves`: the first name proposed is taken, the second is
free. -/
theorem initConfig_reserves_witness :
    createFile (configPath env0) (initConfig env0 2 (configPath env0)) (St.start fsTaken) =
      (match mkdirAll env0.umask (St.start fsTaken).fs (targetPath env0 "echo-fjord-grove-heron") 0o777 with
       | (.error e, fs1) =>
         some (.error (.sys e),
           { fs := fs1, genCalls := (St.start fsTaken).genCalls + 1 + 1, config := (St.start fsTaken).config })
       | (.ok (), fs1) =>
         createFile (configPath env0) (fun path s2 => writeConfigFile env0 s2.config path s2)
           { fs := fs1, genCalls := (St.start fsTaken).genCalls + 1 + 1, config := ⟨"echo-fjord-grove-heron"⟩ }) ∧
    (lstat (mkdirAll env0.umask (St.start fsTaken).fs (targetPath env0 "echo-fjord-grove-heron") 0o777).2 (configPath env0)
        = .error .ENOENT ∨
      ∃ m1, lstat (mkdirAll env0.umask (St.start fsTaken).fs (targetPath env0 "echo-fjord-grove-heron") 0o777).2 (configPath env0)
        = .ok (.dir m1)) ∧
    ((mkdirAll env0.umask (St.start fsTaken).fs (targetPath env0 "echo-fjord-grove-heron") 0o777).1 = .ok () →
      lstat (mkdirAll env0.umask (St.start fsTaken).fs (targetPath env0 "echo-fjord-grove-heron") 0o777).2 (configPath env0)
        = .error .ENOENT →
      createFile (configPath env0) (initConfig env0 2 (configPath env0)) (St.start fsTaken)
        = some (.ok (),
            { fs := (createWrite env0.umask (mkdirAll env0.umask (St.start fsTaken).fs (targetPath env0 "echo-fjord-grove-heron") 0o777).2
                (configPath env0) (env0.encode "echo-fjord-grove-heron")).2,
              genCalls := (St.start fsTaken).genCalls + 1 + 1, config := ⟨"echo-fjord-grove-heron"⟩ }) ∧
      readFile (createWrite env0.umask (mkdirAll env0.umask (St.start fsTaken).fs (targetPath env0 "echo-fjord-grove-heron") 0o777).2
        (configPath env0) (env0.encode "echo-fjord-grove-heron")).2 (configPath env0) = .ok (env0.encode "echo-fjord-grove-heron") ∧
      (∀ a b, a ++ b = targetPath env0 "echo-fjord-grove-heron" →
        ∃ m1, stat (createWrite env0.umask (mkdirAll env0.umask (St.start fsTaken).fs (targetPath env0 "echo-fjord-grove-heron") 0o777).2
          (configPath env0) (env0.encode "echo-fjord-grove-heron")).2 a = .ok (.dir m1)) ∧
      Grows (St.start fsTaken).fs (createWrite env0.umask (mkdirAll env0.umask (St.start fsTaken).fs (targetPath env0 "echo-fjord-grove-heron") 0o777).2
        (configPath env0) (env0.encode "echo-fjord-grove-heron")).2 ∧
      (∀ q n, (createWrite env0.umask (mkdirAll env0.umask (St.start fsTaken).fs (targetPath env0 "echo-fjord-grove-heron") 0o777).2
          (configPath env0) (env0.encode "echo-fjord-grove-heron")).2 q = some n →
        (St.start fsTaken).fs q = some n ∨ n = .dir (applyUmask env0.umask 0o777) ∨
          n = .file (applyUmask env0.umask 0o666) (env0.encode "echo-fjord-grove-heron"))) ∧
    (∀ (a : Path) (b : List String) (l : Path) (m1 : Nat), targetPath env0 "echo-fjord-grove-heron" = a ++ b →
      resolve (St.start fsTaken).fs true a = .ok (l, some (.dir m1)) → Free (St.start fsTaken).fs l b →
      mkdirAll env0.umask (St.start fsTaken).fs (targetPath env0 "echo-fjord-grove-heron") 0o777
        = (.ok (), addDirs (St.start fsTaken).fs (applyUmask env0.umask 0o777) l b)) ∧
    (∀ e s1, createFile (configPath env0) (initConfig env0 2 (configPath env0)) (St.start fsTaken)
        = some (.error e, s1) →
      ∀ text, readFile s1.fs (configPath env0) ≠ .ok text) :=
  initConfig_reserves env0 (St.start fsTaken) 1 "echo-fjord-grove-heron" 0o755 2
    (by decide) (by decide)
    (fun k hk => ⟨"amber-birch-cedar-delta", .dir 0o755,
      by have : k = 0 := by omega
         subst this; decide,
      by decide⟩)
    (by decide) (by decide) (by decide)

/-! ## Reservation uniqueness -/

/-- C5, as stated, fails: `Init` on a fresh `/repo` and then on `/clone`, whose
`config.toml` already names the same folder, succeeds twice with the same
`folderName`, and both links point to the same external directory; and two
repositories without a config whose links both exist and point to `/shared` get
different names while both links keep pointing to `/shared`. -/
theorem Init_shared_folder :
    ((runInit env0 2 fsTwoTrees 0).bind fun r1 =>
      (runInit envClone 2 r1.2.fs r1.2.genCalls).map fun r2 =>
        (r1.1, r2.1, r1.2.config.FolderName, r2.2.config.FolderName))
      = some (.ok (), .ok (), "amber-birch-cedar-delta", "amber-birch-cedar-delta") ∧
    ((runInit env0 2 fsTwoTrees 0).bind fun r1 =>
      (runInit envClone 2 r1.2.fs r1.2.genCalls).map fun r2 =>
        (lstat r2.2.fs (localPrivateFolderPath env0),
          lstat r2.2.fs (localPrivateFolderPath envClone)))
      = some (.ok (.symlink ["home", "cfg", "private-folder", "amber-birch-cedar-delta"]),
          .ok (.symlink ["home", "cfg", "private-folder", "amber-birch-cedar-delta"])) ∧
    ((runInit env0 2 fsTwoLinked 0).bind fun r1 =>
      (runInit envClone 2 r1.2.fs r1.2.genCalls).map fun r2 =>
        (r1.1, r2.1, r1.2.config.FolderName, r2.2.config.FolderName))
      = some (.ok (), .ok (), "amber-birch-cedar-delta", "echo-fjord-grove-heron") ∧
    ((runInit env0 2 fsTwoLinked 0).bind fun r1 =>
      (runInit envClone 2 r1.2.fs r1.2.genCalls).map fun r2 =>
        (lstat r2.2.fs (localPrivateFolderPath env0),
          lstat r2.2.fs (localPrivateFolderPath envClone)))
      = some (.ok (.symlink ["shared"]), .ok (.symlink ["shared"])) := by
  decide

/-- C5, amended. Two successful runs of `Init`, one after the other (the second starts
from the state the first left), against repositories that share the config home, in
each of which the name was chosen by the reservation loop (the word source was
called): the two `folderName` values differ and so do their external paths; after
the second run both paths resolve to directories and each `configPath` holds the
encoding of its own name; and a link that its run found absent and created points
to the path of its own name. -/
theorem reservation_unique (env1 env2 : Env) (fuel1 fuel2 : Nat) (fs0 : FS) (g0 : Nat)
    (s1 s2 : St)
    (hhome : env2.configHome = env1.configHome)
    (hrt1 : ∀ n, env1.decode (env1.encode n) = some (some n))
    (hrt2 : ∀ n, env2.decode (env2.encode n) = some (some n))
    (h1 : runInit env1 fuel1 fs0 g0 = some (.ok (), s1))
    (h2 : runInit env2 fuel2 s1.fs s1.genCalls = some (.ok (), s2))
    (hl1 : g0 < s1.genCalls) (hl2 : s1.genCalls < s2.genCalls) :
    s1.config.FolderName ≠ s2.config.FolderName ∧
    targetPath env1 s1.config.FolderName ≠ targetPath env2 s2.config.FolderName ∧
    (∃ m, stat s2.fs (targetPath env1 s1.config.FolderName) = .ok (.dir m)) ∧
    (∃ m, stat s2.fs (targetPath env2 s2.config.FolderName) = .ok (.dir m)) ∧
    readFile s2.fs (configPath env1) = .ok (env1.encode s1.config.FolderName) ∧
    readFile s2.fs (configPath env2) = .ok (env2.encode s2.config.FolderName) ∧
    (∀ p1, initBeforeLink env1 fuel1 { fs := fs0, genCalls := g0, config := ⟨""⟩ }
        = some (.ok (), p1) →
      lstat p1.fs (localPrivateFolderPath env1) = .error .ENOENT →
      lstat s2.fs (localPrivateFolderPath env1)
        = .ok (.symlink (targetPath env1 s1.config.FolderName))) ∧
    (∀ p2, initBeforeLink env2 fuel2 { fs := s1.fs, genCalls := s1.genCalls, config := ⟨""⟩ }
        = some (.ok (), p2) →
      lstat p2.fs (localPrivateFolderPath env2) = .error .ENOENT →
      lstat s2.fs (localPrivateFolderPath env2)
        = .ok (.symlink (targetPath env2 s2.config.FolderName))) := by
  unfold runInit at h1 h2
  obtain ⟨c1, sB1, _, _, _, hc1, hread1, ⟨m1, hdir1⟩⟩ := Init_chose hrt1 h1 hl1
  obtain ⟨c2, sB2, hgA, hgB, hfree2, hc2, hread2, ⟨m2, hdir2⟩⟩ := Init_chose hrt2 h2 hl2
  have hg12 : Grows s1.fs s2.fs := (Init_keeps env2 fuel2 _ _ h2).1
  have hn1 : s1.config.FolderName = c1 := by rw [hc1]
  have hn2 : s2.config.FolderName = c2 := by rw [hc2]
  rw [hn1, hn2]
  have hpath : targetPath env1 c1 ≠ targetPath env2 c2 := by
    intro he
    have hd := stat_mono hgA hdir1
    rw [he, hfree2] at hd
    cases hd
  have hne : c1 ≠ c2 := by
    intro he
    apply hpath
    unfold targetPath
    rw [hhome, he]
  refine ⟨hne, hpath, ⟨m1, stat_mono hg12 hdir1⟩, ⟨m2, hdir2⟩, readFile_mono hg12 hread1,
    hread2, ?_, ?_⟩
  · intro p1 hp hl
    have := Init_link_created hp hl h1
    rw [hn1] at this
    exact lstat_mono hg12 this
  · intro p2 hp hl
    have := Init_link_created hp hl h2
    rw [hn2] at this
    exact this

/-- Witness for `reservation_unique`: `Init` on the fresh `/repo`, then on the fresh
`/clone`. -/
theorem reservation_unique_witness :
    stAfterFirst.config.FolderName ≠ stAfterSecond.config.FolderName ∧
    targetPath env0 stAfterFirst.config.FolderName
      ≠ targetPath envClone stAfterSecond.config.FolderName ∧
    (∃ m, stat stAfterSecond.fs (targetPath env0 stAfterFirst.config.FolderName)
      = .ok (.dir m)) ∧
    (∃ m, stat stAfterSecond.fs (targetPath envClone stAfterSecond.config.FolderName)
      = .ok (.dir m)) ∧
    readFile stAfterSecond.fs (configPath env0)
      = .ok (env0.encode stAfterFirst.config.FolderName) ∧
    readFile stAfterSecond.fs (configPath envClone)
      = .ok (envClone.encode stAfterSecond.config.FolderName) ∧
    (∀ p1, initBeforeLink env0 2 { fs := fsTwoFresh, genCalls := 0, config := ⟨""⟩ }
        = some (.ok (), p1) →
      lstat p1.fs (localPrivateFolderPath env0) = .error .ENOENT →
      lstat stAfterSecond.fs (localPrivateFolderPath env0)
        = .ok (.symlink (targetPath env0 stAfterFirst.config.FolderName))) ∧
    (∀ p2, initBeforeLink envClone 2
        { fs := stAfterFirst.fs, genCalls := stAfterFirst.genCalls, config := ⟨""⟩ }
        = some (.ok (), p2) →
      lstat p2.fs (localPrivateFolderPath envClone) = .error .ENOENT →
      lstat stAfterSecond.fs (localPrivateFolderPath envClone)
        = .ok (.symlink (targetPath envClone stAfterSecond.config.FolderName))) :=
  reservation_unique env0 envClone 2 2 fsTwoFresh 0 stAfterFirst stAfterSecond rfl
    tomlDecode_encode tomlDecode_encode (by rfl) (by rfl) (by decide) (by decide)

/-! ## A directory at `gitignorePath` -/

/-- C6, as stated, fails: when `.private` is a symbolic link to a directory that holds a
directory `.gitignore`, `gitignorePath` exists as a directory and `Init` fails with
the conflicting-entry error "exists but is not a directory" for `baseDir`, not with
"exists but is not a file". -/
theorem Init_gitignore_dir_other_message :
    lstat fsLinkedBase (gitignorePath env0) = .ok (.dir 0o755) ∧
    (Init env0 1 (St.start fsLinkedBase)).map (fun r => r.1)
      = some (.error (.errorf (baseDir env0) "exists but is not a directory")) := by
  decide

/-- C6, amended. When `gitignorePath` exists as a directory, `Init` (with any bound on
the loop) fails with a conflicting-entry error and leaves the whole state as it was:
no entry is created or modified and the word source is not called. The error is
"exists but is not a file" for `gitignorePath` when `baseDir` is itself a directory,
and "exists but is not a directory" for `baseDir` when `baseDir` is a symbolic link. -/
theorem Init_gitignore_dir (env : Env) (fuel : Nat) (s : St) (m : Nat)
    (h : lstat s.fs (gitignorePath env) = .ok (.dir m)) :
    ∃ e, Init env fuel s = some (.error e, s) ∧ e.isConflict = true ∧
      ((e = .errorf (gitignorePath env) "exists but is not a file" ∧
          ∃ x, lstat s.fs (baseDir env) = .ok x ∧ x.isDir = true) ∨
       (e = .errorf (baseDir env) "exists but is not a directory" ∧
          ∃ x, lstat s.fs (baseDir env) = .ok x ∧ x.isSymlink = true)) := by
  obtain ⟨x, hx, hk⟩ := lstat_parent (p := baseDir env) (c := ".gitignore") h
  cases hd : x.isDir with
  | true =>
    refine ⟨.errorf (gitignorePath env) "exists but is not a file", ?_, rfl,
      Or.inl ⟨rfl, x, hx, hd⟩⟩
    have h1 : createDir env.umask (baseDir env) 0o755 s = some (.ok (), s) := by
      simp [createDir, hx, hd]
    have h2 : createFile (gitignorePath env)
        (fun _path => copyResourceFile env (gitignorePath env)) s
        = some (.error (.errorf (gitignorePath env) "exists but is not a file"), s) := by
      simp [createFile, h, Node.isDir]
    simp only [Init, h1, h2, Outcome.andThen]
  | false =>
    have hsl : x.isSymlink = true := by
      rcases hk with hk | hk
      · rw [hd] at hk; cases hk
      · exact hk
    refine ⟨.errorf (baseDir env) "exists but is not a directory", ?_, rfl,
      Or.inr ⟨rfl, x, hx, hsl⟩⟩
    have h1 : createDir env.umask (baseDir env) 0o755 s
        = some (.error (.errorf (baseDir env) "exists but is not a directory"), s) := by
      simp [createDir, hx, hd]
    simp only [Init, h1, Outcome.andThen]

/-- Witness for `Init_gitignore_dir`: `.private` is a link to a directory holding a
directory `.gitignore`. -/
theorem Init_gitignore_dir_witness :
    ∃ e, Init env0 0 (St.start fsLinkedBase) = some (.error e, St.start fsLinkedBase) ∧
      e.isConflict = true ∧
      ((e = .errorf (gitignorePath env0) "exists but is not a file" ∧
          ∃ x, lstat (St.start fsLinkedBase).fs (baseDir env0) = .ok x ∧ x.isDir = true) ∨
       (e = .errorf (baseDir env0) "exists but is not a directory" ∧
          ∃ x, lstat (St.start fsLinkedBase).fs (baseDir env0) = .ok x ∧
            x.isSymlink = true)) :=
  Init_gitignore_dir env0 0 (St.start fsLinkedBase) 0o755 (by decide)

/-! ## `createDirSymlink` -/

/-- C7, as stated, fails: on a dangling symbolic link `createDirSymlink` returns the
error of `os.Stat` (`ENOENT`), which is not a conflicting-entry error; and with a real
directory at `localPrivateFolderPath` and a `config.toml` that does not decode, `Init`
fails with the decoder's error, not with a conflicting-entry error. -/
theorem createDirSymlink_dangling_not_conflict :
    (lstat fsDangling ["repo", ".private", "files"]
      = .ok (.symlink ["home", "cfg", "private-folder", "a-b-c-d"]) ∧
     (createDirSymlink ["repo", ".private", "files"] (fun _ _ => none)
        (St.start fsDangling)).map (fun r => r.1) = some (.error (.sys .ENOENT)) ∧
     (Err.sys .ENOENT).isConflict = false) ∧
    (lstat fsRealDirLinkBadConfig (localPrivateFolderPath env0) = .ok (.dir 0o755) ∧
     (Init env0 1 (St.start fsRealDirLinkBadConfig)).map (fun r => r.1)
       = some (.error .decode) ∧
     Err.decode.isConflict = false) := by
  decide

/-- C7, amended. `createDirSymlink`: when `Lstat` reports nothing at `dir` the result is
that of one call `create dir`. When an entry exists, `create` is not called and the
state is unchanged; the call succeeds exactly when the entry is a symbolic link and
`Stat` resolves it to a directory; it fails with the conflicting-entry error "exists
but is not a symlink" when the entry is a real directory or file, with "exists but is
not a directory" when the link resolves to something else, and with the error of
`Stat`, unchanged, when the link cannot be resolved (a dangling link). Consequently,
when `localPrivateFolderPath` is a real directory or file, `Init` never succeeds,
and once the earlier steps have succeeded it fails with "exists but is not a symlink". -/
theorem createDirSymlink_spec (dir : Path) (create : Path → St → Outcome) (s : St)
    (env : Env) (fuel : Nat) (s0 : St) :
    (lstat s.fs dir = .error .ENOENT → createDirSymlink dir create s = create dir s) ∧
    (∀ n, lstat s.fs dir = .ok n →
      (createDirSymlink dir create s = some (.ok (), s) ↔
        (n.isSymlink = true ∧ ∃ m, stat s.fs dir = .ok (.dir m))) ∧
      (n.isSymlink = false → createDirSymlink dir create s
        = some (.error (.errorf dir "exists but is not a symlink"), s)) ∧
      (n.isSymlink = true → ∀ st1, stat s.fs dir = .ok st1 → st1.isDir = false →
        createDirSymlink dir create s
          = some (.error (.errorf dir "exists but is not a directory"), s)) ∧
      (n.isSymlink = true → ∀ e, stat s.fs dir = .error e →
        createDirSymlink dir create s = some (.error (.sys e), s))) ∧
    (∀ n, lstat s0.fs (localPrivateFolderPath env) = .ok n → n.isSymlink = false →
      (∀ s2, Init env fuel s0 ≠ some (.ok (), s2)) ∧
      (∀ s1, initBeforeLink env fuel s0 = some (.ok (), s1) →
        Init env fuel s0 = some (.error (.errorf (localPrivateFolderPath env)
          "exists but is not a symlink"), s1))) := by
  refine ⟨?_, ?_, ?_⟩
  · intro h; simp [createDirSymlink, h]
  · intro n h
    refine ⟨?_, ?_, ?_, ?_⟩
    · cases hsl : n.isSymlink with
      | false => simp [createDirSymlink, h, hsl]
      | true =>
        cases hs : stat s.fs dir with
        | error e => simp [createDirSymlink, h, hsl, hs]
        | ok st1 =>
          cases st1 with
          | dir m => simp [createDirSymlink, h, hsl, hs, Node.isDir]
          | file a b => simp [createDirSymlink, h, hsl, hs, Node.isDir]
          | symlink t => simp [createDirSymlink, h, hsl, hs, Node.isDir]
    · intro hsl; simp [createDirSymlink, h, hsl]
    · intro hsl st1 hs hd; simp [createDirSymlink, h, hsl, hs, hd]
    · intro hsl e hs; simp [createDirSymlink, h, hsl, hs]
  · intro n h hsl
    have key : ∀ s1, initBeforeLink env fuel s0 = some (.ok (), s1) →
        Init env fuel s0 = some (.error (.errorf (localPrivateFolderPath env)
          "exists but is not a symlink"), s1) := by
      intro s1 hp
      have hl := lstat_mono (initBeforeLink_keeps env fuel s0 _ hp).1 h
      rw [Init_split, hp]
      simp [Outcome.andThen, createDirSymlink, hl, hsl]
    refine ⟨?_, key⟩
    intro s2 hi
    have hi2 := hi
    rw [Init_split] at hi2
    rcases andThen_some hi2 with ⟨e, s1, _, hre⟩ | ⟨s1, ho, _⟩
    · cases hre
    · rw [key s1 ho] at hi
      cases hi

/-- Witness for `createDirSymlink_spec`: a dangling link is refused with the error of
`Stat`, and `Init` on a repository whose `.private/files` is a real directory fails
with the conflicting-entry error. -/
theorem createDirSymlink_spec_witness :
    createDirSymlink ["repo", ".private", "files"] (fun _ _ => none) (St.start fsDangling)
      = some (.error (.sys .ENOENT), St.start fsDangling) ∧
    Init env0 1 (St.start fsRealDirLink)
      = some (.error (.errorf (localPrivateFolderPath env0) "exists but is not a symlink"),
          { fs := fsRealDirLink, genCalls := 0, config := ⟨"a-b-c-d"⟩ }) :=
  ⟨(createDirSymlink_spec ["repo", ".private", "files"] (fun _ _ => none)
      (St.start fsDangling) env0 0 (St.start fsDangling)).2.1
      (.symlink ["home", "cfg", "private-folder", "a-b-c-d"]) (by decide) |>.2.2.2 (by decide)
      .ENOENT (by decide),
   (createDirSymlink_spec [] (fun _ _ => none) (St.start fsDangling) env0 1
      (St.start fsRealDirLink)).2.2 (.dir 0o755) (by decide) (by decide) |>.2 _ (by rfl)⟩

/-! ## `createFile` -/

/-- C8. `createFile`: when `Lstat` reports that nothing exists at `path`, the result is
that of one call `create path`; when an entry exists that is not a directory (a file
or any symbolic link), the call succeeds, whatever `create` is, and the state is
unchanged; when the entry is a directory the call fails with the conflicting-entry
error "exists but is not a file" for `path`, whatever `create` is, state unchanged. -/
theorem createFile_spec (path : Path) (create : Path → St → Outcome) (s : St) :
    (lstat s.fs path = .error .ENOENT → createFile path create s = create path s) ∧
    (∀ n, lstat s.fs path = .ok n → n.isDir = false →
      createFile path create s = some (.ok (), s)) ∧
    (∀ n, lstat s.fs path = .ok n → n.isDir = true →
      createFile path create s = some (.error (.errorf path "exists but is not a file"), s)) := by
  refine ⟨?_, ?_, ?_⟩
  · intro h; simp [createFile, h]
  · intro n h hd; simp [createFile, h, hd]
  · intro n h hd; simp [createFile, h, hd]

/-- Witness for `createFile_spec`: the three cases on `fsDangling`. -/
theorem createFile_spec_witness :
    createFile ["repo", ".private", "nothing"] (fun _ _ => none) (St.start fsDangling) = none ∧
    createFile ["repo", ".private", "files"] (fun _ _ => none) (St.start fsDangling)
      = some (.ok (), St.start fsDangling) ∧
    createFile ["repo", ".private"] (fun _ _ => none) (St.start fsDangling)
      = some (.error (.errorf ["repo", ".private"] "exists but is not a file"),
          St.start fsDangling) :=
  ⟨(createFile_spec _ _ _).1 (by decide),
   (createFile_spec _ _ _).2.1 (.symlink ["home", "cfg", "private-folder", "a-b-c-d"])
     (by decide) (by decide),
   (createFile_spec _ _ _).2.2 (.dir 0o755) (by decide) (by decide)⟩

/-! ## `createDir` -/

/-- C9, as stated, fails: a symbolic link that resolves to a directory is rejected by
`createDir` ("exists but is not a directory"); when `Lstat` reports nothing at the
path `MkdirAll` can still fail (here below a dangling link), creating nothing; and
under the umask 022 a directory asked for with mode 0777 is created with mode 0755. -/
theorem createDir_symlink_to_dir_rejected :
    (lstat fsLinkedBase ["repo", ".private"] = .ok (.symlink ["store"]) ∧
     stat fsLinkedBase ["repo", ".private"] = .ok (.dir 0o755) ∧
     (createDir 0o022 ["repo", ".private"] 0o755 (St.start fsLinkedBase)).map (fun r => r.1)
       = some (.error (.errorf ["repo", ".private"] "exists but is not a directory"))) ∧
    (lstat fsDanglingRoot ["repo", ".private"] = .error .ENOENT ∧
     (createDir 0o022 ["repo", ".private"] 0o755 (St.start fsDanglingRoot)).map
       (fun r => (r.1, r.2.fs ["repo", ".private"], r.2.fs ["gone"]))
       = some (.error (.sys .EEXIST), none, none)) ∧
    (createDir 0o022 ["repo", "new"] 0o777 (St.start fsConfigOnly)).map
       (fun r => (r.1, r.2.fs ["repo", "new"])) = some (.ok (), some (.dir 0o755)) := by
  decide

/-- C9, amended. `createDir` in a process with umask `um`: when the entry at `dir` is
itself a directory the call succeeds and the state is unchanged; when it is anything
else (a file, or a symbolic link, whatever it resolves to) the call fails with the
conflicting-entry error "exists but is not a directory" for `dir`, state unchanged;
when `Lstat` reports nothing at `dir`, the call runs `MkdirAll(dir, perm)` and
returns its result, its error included. When the part `a` of `dir = a ++ b` resolves to
a directory and nothing exists below it along `b`, `Lstat` reports nothing at `dir`
and the call succeeds, adding exactly the directories along `b` (the path and all its
missing ancestors) with mode `perm & ~um`. In every case `MkdirAll` changes no
existing entry, every entry it adds is a directory of mode `perm & ~um`, and when it
succeeds `dir` and each of its ancestors resolves to a directory. -/
theorem createDir_spec (um : Nat) (dir : Path) (perm : Nat) (s : St) :
    (∀ n, lstat s.fs dir = .ok n → n.isDir = true →
      createDir um dir perm s = some (.ok (), s)) ∧
    (∀ n, lstat s.fs dir = .ok n → n.isDir = false →
      createDir um dir perm s
        = some (.error (.errorf dir "exists but is not a directory"), s)) ∧
    (lstat s.fs dir = .error .ENOENT →
      createDir um dir perm s = some
        (match mkdirAll um s.fs dir perm with
         | (.ok (), fs2) => (.ok (), { s with fs := fs2 })
         | (.error e, fs2) => (.error (.sys e), { s with fs := fs2 }))) ∧
    (∀ (a : Path) (b : List String) (l : Path) (m : Nat), dir = a ++ b → b ≠ [] →
      resolve s.fs true a = .ok (l, some (.dir m)) → Free s.fs l b →
      lstat s.fs dir = .error .ENOENT ∧
      createDir um dir perm s
        = some (.ok (), { s with fs := addDirs s.fs (applyUmask um perm) l b })) ∧
    (Grows s.fs (mkdirAll um s.fs dir perm).2 ∧
     (∀ q n, (mkdirAll um s.fs dir perm).2 q = some n →
        s.fs q = some n ∨ n = .dir (applyUmask um perm)) ∧
     ((mkdirAll um s.fs dir perm).1 = .ok () →
        ∀ a b, a ++ b = dir → ∃ m, stat (mkdirAll um s.fs dir perm).2 a = .ok (.dir m))) := by
  have hrun : lstat s.fs dir = .error .ENOENT →
      createDir um dir perm s = some
        (match mkdirAll um s.fs dir perm with
         | (.ok (), fs2) => (.ok (), { s with fs := fs2 })
         | (.error e, fs2) => (.error (.sys e), { s with fs := fs2 })) := by
    intro h
    simp only [createDir, h, if_true]
    cases hm : mkdirAll um s.fs dir perm with
    | mk res fs1 =>
      cases res with
      | error e => rfl
      | ok u => rfl
  refine ⟨?_, ?_, hrun, ?_, mkdirAll_grows um s.fs dir perm, mkdirAll_new um s.fs dir perm, ?_⟩
  · intro n h hd; simp [createDir, h, hd]
  · intro n h hd; simp [createDir, h, hd]
  · intro a b l m hdir hb ha hfree
    subst hdir
    have habs := lstat_fresh ha b hb hfree
    refine ⟨habs, ?_⟩
    rw [hrun habs, mkdirAll_fresh um perm b ha hfree]
  · intro hok a b hab
    subst hab
    obtain ⟨m, hs⟩ := mkdirAll_ok hok
    exact stat_ancestor a b m hs

/-- Witness for `createDir_spec`: an existing directory, a symbolic link to a directory,
and `/home/cfg/private-folder/x` created together with its parent below `/home/cfg`. -/
theorem createDir_spec_witness :
    createDir 0o022 ["repo", ".private"] 0o755 (St.start fsDangling)
      = some (.ok (), St.start fsDangling) ∧
    createDir 0o022 ["repo", ".private"] 0o755 (St.start fsLinkedBase)
      = some (.error (.errorf ["repo", ".private"] "exists but is not a directory"),
          St.start fsLinkedBase) ∧
    (lstat (St.start fsDangling).fs (["home", "cfg"] ++ ["private-folder", "x"])
        = .error .ENOENT ∧
      createDir 0o022 (["home", "cfg"] ++ ["private-folder", "x"]) 0o777 (St.start fsDangling)
        = some (.ok (), { St.start fsDangling with
            fs := addDirs (St.start fsDangling).fs (applyUmask 0o022 0o777) ["home", "cfg"]
              ["private-folder", "x"] })) :=
  ⟨(createDir_spec _ _ _ _).1 (.dir 0o755) (by decide) (by decide),
   (createDir_spec _ _ _ _).2.1 (.symlink ["store"]) (by decide) (by decide),
   (createDir_spec 0o022 (["home", "cfg"] ++ ["private-folder", "x"]) 0o777
      (St.start fsDangling)).2.2.2.1 ["home", "cfg"] ["private-folder", "x"] ["home", "cfg"]
      0o755 rfl (by decide) (by decide) (Free.of_inits (by decide))⟩

/-! ## Exit status -/

/-- C10, as stated, fails: when repository detection fails, and when `Init` fails (here
on a real directory at `.private/files`), `main` logs the error and the exit status
of the process is 0. -/
theorem main_failure_exit_zero :
    (main env0 none 1 (St.start fsConfigOnly)).map (fun r => r.1)
      = some { status := 0, logged := some .repository } ∧
    (main env0 (some ["repo"]) 1 (St.start fsRealDirLink)).map (fun r => r.1)
      = some { status := 0, logged := some (.errorf ["repo", ".private", "files"]
          "exists but is not a symlink") } := by
  decide

/-- C10, amended. For every run of the command `init` that returns: when repository
detection or `Init` returns an error, `main` passes exactly that error to the logger,
when `Init` succeeds nothing is logged, and in both cases the exit status is 0. -/
theorem main_exit_status (env : Env) (detect : Option Path) (fuel : Nat) (s : St)
    (x : Exit) (s1 : St) (h : main env detect fuel s = some (x, s1)) :
    x.status = 0 ∧
    (∀ e, doInit env detect fuel s = some (.error e, s1) ↔ x.logged = some e) ∧
    (doInit env detect fuel s = some (.ok (), s1) ↔ x.logged = none) := by
  unfold main at h
  cases hd : doInit env detect fuel s with
  | none => rw [hd] at h; cases h
  | some r =>
    obtain ⟨res, s2⟩ := r
    rw [hd] at h
    cases res with
    | error e =>
      simp only [Option.some.injEq, Prod.mk.injEq] at h
      obtain ⟨hx, hs⟩ := h
      subst hx; subst hs
      simp
    | ok u =>
      simp only [Option.some.injEq, Prod.mk.injEq] at h
      obtain ⟨hx, hs⟩ := h
      subst hx; subst hs
      simp

/-- Witness for `main_exit_status`: no repository is found. -/
theorem main_exit_status_witness :
    (0 : Nat) = 0 ∧
    (∀ e, doInit env0 none 0 (St.start fsConfigOnly)
        = some (.error e, St.start fsConfigOnly) ↔ some Err.repository = some e) ∧
    (doInit env0 none 0 (St.start fsConfigOnly) = some (.ok (), St.start fsConfigOnly)
      ↔ some Err.repository = none) :=
  main_exit_status env0 none 0 (St.start fsConfigOnly)
    { status := 0, logged := some .repository } (St.start fsConfigOnly) rfl

end PrivateFolder
